import Mathlib

/-! # Verification of the DrSui commitment / proof / attestation subsystem

This development shallowly embeds `backend/zk_utils.py` and proves the spec's
claims about it.  JSON-shaped Python dictionaries become the inductive type
`Json`; `json.dumps(..., sort_keys=True)` becomes the canonical serializer
`Json.dumps`; `json.loads` becomes the executable parser `Json.loads`.

The external cryptographic libraries used by the source are not part of the
repository and are modelled at the level of their contracts:

* `hashlib`/`Crypto.Hash` digests (`SHA256.new`, `SHA3_256.new`) are passed in
  as explicit function parameters `sha256, sha3 : Bytes → Bytes`; theorems that
  need a property of the digest (injectivity as the symbolic idealisation of
  collision resistance, or the fixed 32-byte output length) take it as a
  hypothesis.
* the Base58 codec (`base58.b58encode/b58decode`), the PEM key codec
  (`ECC.import_key` / `export_key`) and the ECDSA signer (`Crypto.Signature.DSS`)
  are modelled symbolically by executable injective encoders with partial
  inverse decoders; the properties the source relies on (decode ∘ encode = id,
  decode coherence, a signature verifies only against the digest it signed)
  are proved, not assumed.

Ambient effects of the source (current time, random salt and nonce) are passed
as explicit parameters.
-/

/-- Model of a Python JSON-shaped value: the values that appear in proof and
attestation records (`None`, booleans, ints, strings and string-keyed dicts). -/
inductive Json where
  | null : Json
  | bool (b : Bool) : Json
  | int (n : Int) : Json
  | str (s : String) : Json
  | obj (kvs : List (String × Json)) : Json
deriving Repr

/-- Model of Python `bytes`: a list of byte values. -/
abbrev Bytes := List Nat

/-- First-match association lookup: model of `dict.get` (dict keys are unique
in Python, so first match is the match). -/
def lookupKV : List (String × Json) → String → Option Json
  | [], _ => none
  | (k', v) :: r, k => if k' = k then some v else lookupKV r k

/-- Model of `proof.get(key)`.  On a non-dict value `.get` raises
`AttributeError`, which `verify_proof`'s outer handler turns into `False`;
returning `none` here models that path. -/
def jsonGet (p : Json) (k : String) : Option Json :=
  match p with
  | .obj kvs => lookupKV kvs k
  | _ => none

/-- Replace the value at a key in place, or append it: model of a Python dict
update `d[k] = v` (and of a `{**d, k: v}` merge entry). -/
def setKV : List (String × Json) → String → Json → List (String × Json)
  | [], k, v => [(k, v)]
  | (k', v') :: r, k, v => if k' = k then (k, v) :: r else (k', v') :: setKV r k v

/-- Lifting of `setKV` to a `Json` value (no-op on non-dicts). -/
def objSet (j : Json) (k : String) (v : Json) : Json :=
  match j with
  | .obj kvs => .obj (setKV kvs k v)
  | _ => j

/-- Remove the entry at a key: model of `del d[k]`. -/
def delKV : List (String × Json) → String → List (String × Json)
  | [], _ => []
  | (k', v') :: r, k => if k' = k then r else (k', v') :: delKV r k

/-- Lifting of `delKV` to a `Json` value (no-op on non-dicts). -/
def objDel (j : Json) (k : String) : Json :=
  match j with
  | .obj kvs => .obj (delKV kvs k)
  | _ => j

/-- Model of Python truthiness of a `dict.get` result, as used by
`if not signature_b58 or not public_key_b58` in `verify_proof`:
`None`, `False`, `0`, `""` and `{}` are falsy. -/
def truthy : Option Json → Bool
  | none => false
  | some .null => false
  | some (.bool b) => b
  | some (.int n) => n != 0
  | some (.str s) => s != ""
  | some (.obj kvs) => !kvs.isEmpty

mutual

/-- Decidable equality for `Json` (written by hand: `deriving` does not handle
the nested list of entries). -/
def Json.decEq : (a b : Json) → Decidable (a = b)
  | .null, .null => isTrue rfl
  | .bool a, .bool b =>
    if h : a = b then isTrue (by rw [h]) else isFalse (by intro hh; cases hh; exact h rfl)
  | .int a, .int b =>
    if h : a = b then isTrue (by rw [h]) else isFalse (by intro hh; cases hh; exact h rfl)
  | .str a, .str b =>
    if h : a = b then isTrue (by rw [h]) else isFalse (by intro hh; cases hh; exact h rfl)
  | .obj a, .obj b =>
    match Json.decEqList a b with
    | isTrue h => isTrue (by rw [h])
    | isFalse h => isFalse (by intro hh; cases hh; exact h rfl)
  | .null, .bool _ => isFalse (fun h => Json.noConfusion h)
  | .null, .int _ => isFalse (fun h => Json.noConfusion h)
  | .null, .str _ => isFalse (fun h => Json.noConfusion h)
  | .null, .obj _ => isFalse (fun h => Json.noConfusion h)
  | .bool _, .null => isFalse (fun h => Json.noConfusion h)
  | .bool _, .int _ => isFalse (fun h => Json.noConfusion h)
  | .bool _, .str _ => isFalse (fun h => Json.noConfusion h)
  | .bool _, .obj _ => isFalse (fun h => Json.noConfusion h)
  | .int _, .null => isFalse (fun h => Json.noConfusion h)
  | .int _, .bool _ => isFalse (fun h => Json.noConfusion h)
  | .int _, .str _ => isFalse (fun h => Json.noConfusion h)
  | .int _, .obj _ => isFalse (fun h => Json.noConfusion h)
  | .str _, .null => isFalse (fun h => Json.noConfusion h)
  | .str _, .bool _ => isFalse (fun h => Json.noConfusion h)
  | .str _, .int _ => isFalse (fun h => Json.noConfusion h)
  | .str _, .obj _ => isFalse (fun h => Json.noConfusion h)
  | .obj _, .null => isFalse (fun h => Json.noConfusion h)
  | .obj _, .bool _ => isFalse (fun h => Json.noConfusion h)
  | .obj _, .int _ => isFalse (fun h => Json.noConfusion h)
  | .obj _, .str _ => isFalse (fun h => Json.noConfusion h)

/-- Decidable equality for entry lists, mutual with `Json.decEq`. -/
def Json.decEqList : (a b : List (String × Json)) → Decidable (a = b)
  | [], [] => isTrue rfl
  | [], _ :: _ => isFalse (fun h => List.noConfusion h)
  | _ :: _, [] => isFalse (fun h => List.noConfusion h)
  | (k1, v1) :: r1, (k2, v2) :: r2 =>
    if hk : k1 = k2 then
      match Json.decEq v1 v2 with
      | isTrue hv =>
        match Json.decEqList r1 r2 with
        | isTrue hr => isTrue (by rw [hk, hv, hr])
        | isFalse hr => isFalse (by intro hh; cases hh; exact hr rfl)
      | isFalse hv => isFalse (by intro hh; cases hh; exact hv rfl)
    else isFalse (by intro hh; cases hh; exact hk rfl)

end

instance : DecidableEq Json := Json.decEq

/-- Lexicographic code-point comparison of character lists: the order Python
`sorted` uses on `str` keys. -/
def charsLe : List Char → List Char → Bool
  | [], _ => true
  | _ :: _, [] => false
  | c1 :: r1, c2 :: r2 =>
    if c1.toNat < c2.toNat then true
    else if c2.toNat < c1.toNat then false
    else charsLe r1 r2

/-- Order on entries used by `sort_keys=True`: compare keys by code points. -/
def keyLe (a b : String × Json) : Prop := charsLe a.1.data b.1.data = true

instance : DecidableRel keyLe := fun a b =>
  inferInstanceAs (Decidable (charsLe a.1.data b.1.data = true))

instance : IsTotal (String × Json) keyLe where
  total a b := by
    have key : ∀ x y : List Char, charsLe x y = true ∨ charsLe y x = true := by
      intro x
      induction x with
      | nil => intro y; left; rfl
      | cons c1 r1 ih =>
        intro y
        cases y with
        | nil => right; rfl
        | cons c2 r2 =>
          by_cases h1 : c1.toNat < c2.toNat
          · left; simp [charsLe, h1]
          · by_cases h2 : c2.toNat < c1.toNat
            · right; simp [charsLe, h2]
            · rcases ih r2 with h | h
              · left; simp [charsLe, h1, h2, h]
              · right; simp [charsLe, h1, h2, h]
    exact key a.1.data b.1.data

instance : IsTrans (String × Json) keyLe where
  trans a b c hab hbc := by
    have key : ∀ x y z : List Char, charsLe x y = true → charsLe y z = true →
        charsLe x z = true := by
      intro x
      induction x with
      | nil => intro y z _ _; rfl
      | cons c1 r1 ih =>
        intro y z hxy hyz
        cases y with
        | nil => exact absurd hxy (by simp [charsLe])
        | cons c2 r2 =>
          cases z with
          | nil => exact absurd hyz (by simp [charsLe])
          | cons c3 r3 =>
            simp only [charsLe] at hxy hyz ⊢
            by_cases h12 : c1.toNat < c2.toNat <;>
              by_cases h23 : c2.toNat < c3.toNat <;>
              by_cases h21 : c2.toNat < c1.toNat <;>
              by_cases h32 : c3.toNat < c2.toNat <;>
              simp_all <;>
              first
              | omega
              | (left; omega)
              | (right
                 refine ⟨by omega, ?_⟩
                 exact ih r2 r3 hxy hyz)
    exact key a.1.data b.1.data c.1.data hab hbc

/-- Sort an entry list by key: the ordering step of `json.dumps(..., sort_keys=True)`. -/
def sortKvs (kvs : List (String × Json)) : List (String × Json) :=
  kvs.insertionSort keyLe

mutual

/-- Canonical form of a JSON value: every object's entries sorted by key,
recursively.  `Json.dumps` serializes this form, `Json.loads` produces it, and
(for values with unique keys, as Python dicts have) equality of canonical
forms models Python `==` on parsed JSON data. -/
def Json.canon : Json → Json
  | .null => .null
  | .bool b => .bool b
  | .int n => .int n
  | .str s => .str s
  | .obj kvs => .obj (sortKvs (Json.canonList kvs))

/-- Canonicalize every value of an entry list (keys and order untouched). -/
def Json.canonList : List (String × Json) → List (String × Json)
  | [] => []
  | (k, v) :: r => (k, Json.canon v) :: Json.canonList r

end

/-- Does the key occur in the entry list? -/
def hasKey : List (String × Json) → String → Bool
  | [], _ => false
  | (k', _) :: r, k => k' == k || hasKey r k

/-- Pairwise distinct keys. -/
def nodupKeys : List (String × Json) → Bool
  | [] => true
  | (k, _) :: r => !hasKey r k && nodupKeys r

mutual

/-- Well-formed JSON value: every object (recursively) has pairwise distinct
keys, as any value built from Python dicts does. -/
def Json.wfB : Json → Bool
  | .null => true
  | .bool _ => true
  | .int _ => true
  | .str _ => true
  | .obj kvs => nodupKeys kvs && Json.wfListB kvs

/-- Well-formedness of every value of an entry list. -/
def Json.wfListB : List (String × Json) → Bool
  | [] => true
  | (_, v) :: r => Json.wfB v && Json.wfListB r

end

/-- Model of Python `==` between two JSON-shaped values (dicts compare as
key-value maps, irrespective of insertion order): equality of canonical
forms.  For well-formed values this coincides with map equality, since
sorting entries with pairwise distinct keys forgets exactly the insertion
order. -/
def pythonEq (a b : Json) : Bool := decide (Json.canon a = Json.canon b)

/-- Decimal digit character. -/
def digitChar (n : Nat) : Char := Char.ofNat (48 + n)

/-- Fuelled worker for `natChars` (fuel keeps the recursion structural, so
that it evaluates inside the kernel). -/
def natCharsFuel : Nat → Nat → List Char
  | 0, _ => []
  | fuel + 1, n =>
    if n < 10 then [digitChar n]
    else natCharsFuel fuel (n / 10) ++ [digitChar (n % 10)]

/-- Decimal digits of a natural number, as Python `str(n)` renders it. -/
def natChars (n : Nat) : List Char := natCharsFuel (n + 1) n

/-- Python `str()` of an int, as serialized by `json.dumps`. -/
def intChars : Int → List Char
  | .ofNat n => natChars n
  | .negSucc n => '-' :: natChars (n + 1)

/-- JSON escaping of one string character.  The model implements the two
escapes (quote and backslash) that keep the encoding injective; the proof
records only ever contain unescaped printable text. -/
def escapeChar (c : Char) : List Char :=
  if c = '\"' ∨ c = '\\' then ['\\', c] else [c]

/-- JSON escaping of a string body. -/
def escapeStr : List Char → List Char
  | [] => []
  | c :: cs => escapeChar c ++ escapeStr cs

mutual

/-- Serialize a JSON value with `json.dumps`'s default separators
(`", "` and `": "`).  Objects are emitted in the order given; `Json.dumps`
sorts them first via `Json.canon`. -/
def Json.ser : Json → List Char
  | .null => ['n', 'u', 'l', 'l']
  | .bool b => if b then ['t', 'r', 'u', 'e'] else ['f', 'a', 'l', 's', 'e']
  | .int n => intChars n
  | .str s => '\"' :: (escapeStr s.data ++ ['\"'])
  | .obj kvs => '\x7b' :: (Json.serEntries kvs ++ ['\x7d'])

/-- Comma-separated serialized entries (each one a `"key": value` pair, as
`Json.serEntry` renders it). -/
def Json.serEntries : List (String × Json) → List Char
  | [] => []
  | [(k, v)] => '\"' :: (escapeStr k.data ++ '\"' :: ':' :: ' ' :: Json.ser v)
  | (k, v) :: r =>
    ('\"' :: (escapeStr k.data ++ '\"' :: ':' :: ' ' :: Json.ser v)) ++
      ',' :: ' ' :: Json.serEntries r

end

/-- One serialized `"key": value` entry. -/
def Json.serEntry (k : String) (v : Json) : List Char :=
  '\"' :: (escapeStr k.data ++ '\"' :: ':' :: ' ' :: Json.ser v)

/-- Model of `json.dumps(v, sort_keys=True)`: serialize the canonical form. -/
def Json.dumps (v : Json) : String := ⟨Json.ser (Json.canon v)⟩

/-- Parse a JSON string body up to the closing quote, undoing `escapeChar`. -/
def parseStrBody : List Char → Option (List Char × List Char)
  | [] => none
  | c :: rest =>
    if c = '\"' then some ([], rest)
    else if c = '\\' then
      match rest with
      | [] => none
      | c2 :: rest2 =>
        if c2 = '\"' ∨ c2 = '\\' then
          match parseStrBody rest2 with
          | some (s, r) => some (c2 :: s, r)
          | none => none
        else none
    else
      match parseStrBody rest with
      | some (s, r) => some (c :: s, r)
      | none => none

/-- Consume a leading run of decimal digits. -/
def takeDigits : List Char → (List Char × List Char)
  | [] => ([], [])
  | c :: r =>
    if c.isDigit then
      let p := takeDigits r
      (c :: p.1, p.2)
    else ([], c :: r)

/-- Numeric value of a big-endian digit string. -/
def digitsVal (ds : List Char) : Nat :=
  ds.foldl (fun a c => 10 * a + (c.toNat - 48)) 0

/-- Parse a nonempty run of digits as a natural number. -/
def parseNat (input : List Char) : Option (Nat × List Char) :=
  match takeDigits input with
  | ([], _) => none
  | (ds, rest) => some (digitsVal ds, rest)

mutual

/-- Fuel-indexed recursive-descent parser for the JSON fragment emitted by
`Json.ser`: the executable model of `json.loads`.  `Json.loads` supplies
enough fuel for any input. -/
def parseVal : Nat → List Char → Option (Json × List Char)
  | 0, _ => none
  | _ + 1, [] => none
  | fuel + 1, c :: rest =>
    if c = 'n' then
      match rest with
      | 'u' :: 'l' :: 'l' :: r => some (.null, r)
      | _ => none
    else if c = 't' then
      match rest with
      | 'r' :: 'u' :: 'e' :: r => some (.bool true, r)
      | _ => none
    else if c = 'f' then
      match rest with
      | 'a' :: 'l' :: 's' :: 'e' :: r => some (.bool false, r)
      | _ => none
    else if c = '\"' then
      match parseStrBody rest with
      | some (s, r) => some (.str (String.mk s), r)
      | none => none
    else if c = '\x7b' then
      match rest with
      | '\x7d' :: r => some (.obj [], r)
      | _ =>
        match parseEntries fuel rest with
        | some (kvs, r) => some (.obj kvs, r)
        | none => none
    else if c = '-' then
      match parseNat rest with
      | some (m, r) => some (.int (-(m : Int)), r)
      | none => none
    else if c.isDigit then
      match parseNat (c :: rest) with
      | some (m, r) => some (.int (m : Int), r)
      | none => none
    else none

/-- Parse one or more comma-separated entries followed by the closing brace. -/
def parseEntries : Nat → List Char → Option (List (String × Json) × List Char)
  | 0, _ => none
  | fuel + 1, input =>
    match input with
    | '\"' :: rest =>
      match parseStrBody rest with
      | some (k, r1) =>
        match r1 with
        | ':' :: ' ' :: r2 =>
          match parseVal fuel r2 with
          | some (v, r3) =>
            match r3 with
            | ',' :: ' ' :: r4 =>
              match parseEntries fuel r4 with
              | some (kvs, r5) => some ((String.mk k, v) :: kvs, r5)
              | none => none
            | '\x7d' :: r4 => some ([(String.mk k, v)], r4)
            | _ => none
          | none => none
        | _ => none
      | none => none
    | _ => none

end

mutual

/-- Fuel needed by `parseVal` to parse the serialization of a value. -/
def Json.fsize : Json → Nat
  | .null => 1
  | .bool _ => 1
  | .int _ => 1
  | .str _ => 1
  | .obj kvs => 1 + Json.fsizeList kvs

/-- Fuel needed by `parseEntries` to parse a serialized entry list. -/
def Json.fsizeList : List (String × Json) → Nat
  | [] => 1
  | (_, v) :: r => 1 + Json.fsize v + Json.fsizeList r

end

/-- Model of `json.loads` on text produced by `Json.dumps`: parse a complete
value, requiring all input to be consumed. -/
def Json.loads (s : List Char) : Option Json :=
  match parseVal (s.length + 1) s with
  | some (v, []) => some v
  | _ => none

/-- Model of `str.encode('utf-8')`: the character-code sequence of the text.
The multi-byte surface layout of real UTF-8 is abstracted; what the source
relies on — injectivity, and losslessness against `utf8Decode` — is proved. -/
def utf8Encode (s : String) : Bytes := s.data.map Char.toNat

/-- Model of `bytes.decode('utf-8')`: partial inverse of `utf8Encode`,
failing (Python: raising, caught by the callers' handlers) on byte values
that are not valid character codes. -/
def utf8Decode (bs : Bytes) : Option String :=
  if ∀ b ∈ bs, Nat.isValidChar b then some (String.mk (bs.map Char.ofNat))
  else none

/-- Lowercase hexadecimal digit character for a nibble. -/
def hexDigitChar (n : Nat) : Char :=
  if n < 10 then Char.ofNat (48 + n) else Char.ofNat (87 + n)

/-- Two lowercase hex digits of one byte. -/
def byteHex (b : Nat) : List Char := [hexDigitChar (b / 16), hexDigitChar (b % 16)]

/-- Model of `bytes.hex()` / `hashlib` `hexdigest()`: lowercase hex encoding. -/
def bytesHex (bs : Bytes) : String := String.mk ((bs.map byteHex).flatten)

/-- Model of the Base58 text encoding of a byte string
(`base58.b58encode(...).decode('utf-8')`): a run of `n` marker characters
followed by a terminator encodes byte value `n`.  The base-58 numeral system
itself is abstracted; the contract the source relies on — injectivity, a
partial inverse decoder, and decode coherence — is proved below. -/
def b58encodeL : Bytes → List Char
  | [] => []
  | b :: rest => List.replicate b 'z' ++ 'o' :: b58encodeL rest

/-- Packaging of `b58encodeL` as a string. -/
def b58encode (bs : Bytes) : String := String.mk (b58encodeL bs)

/-- Decoder worker: `k` counts marker characters seen since the last
terminator; any other character, or trailing markers, fail the decode. -/
def b58decodeL : List Char → Nat → Option Bytes
  | [], 0 => some []
  | [], _ + 1 => none
  | c :: r, k =>
    if c = 'z' then b58decodeL r (k + 1)
    else if c = 'o' then
      match b58decodeL r 0 with
      | some bs => some (k :: bs)
      | none => none
    else none

/-- Model of `base58.b58decode`: partial inverse of `b58encode` (Python:
raises on malformed input, which every caller catches). -/
def b58decode (s : String) : Option Bytes := b58decodeL s.data 0

/-- Model of an ECC P-256 keypair (`Crypto.PublicKey.ECC`): a symbolic key
identity.  Key generation, curve arithmetic and PEM formats are abstracted;
signing and verification below are faithful to the unforgeability contract. -/
structure ECCKey where
  keyId : Nat
deriving DecidableEq, Repr

/-- Model of `private_key.public_key()`: the verification half of the pair
(symbolically, the same key identity). -/
def ECCKey.publicKey (k : ECCKey) : ECCKey := k

/-- Model of `key.export_key(format='PEM')`: an injective text encoding of
the key. -/
def exportPem (k : ECCKey) : String :=
  String.mk (List.replicate k.keyId 'p' ++ ['P'])

/-- Worker for `importKey`, counting leading marker characters. -/
def importKeyL : List Char → Nat → Option ECCKey
  | [], _ => none
  | c :: r, k =>
    if c = 'p' then importKeyL r (k + 1)
    else if c = 'P' ∧ r = [] then some ⟨k⟩
    else none

/-- Model of `ECC.import_key`: partial inverse of `exportPem` (Python: raises
on malformed input, which `verify_proof` catches). -/
def importKey (s : String) : Option ECCKey := importKeyL s.data 0

/-- Model of `DSS.new(key, 'fips-186-3').sign(hash)`: a symbolic signature
binding the signing key's identity to the signed digest. -/
def dssSign (k : ECCKey) (digest : Bytes) : Bytes := k.keyId :: digest

/-- Model of `DSS.new(public_key, 'fips-186-3').verify(hash, signature)`:
accepts exactly the signature bytes produced by the matching key on the same
digest (the symbolic idealisation of ECDSA unforgeability; the `False` branch
models the caught `ValueError`). -/
def dssVerify (pub : ECCKey) (digest : Bytes) (sig : Bytes) : Bool :=
  match sig with
  | kid :: d => kid == pub.keyId && d == digest
  | [] => false

/-- The constant `ZKProofGenerator.proof_type`. -/
def proofTypeStr : String := "zk_medical_analysis"

/-- The constant `ZKProofGenerator.proof_version`. -/
def proofVersionStr : String := "1.0"

/-- The dict `ZKProofGenerator.proof_metadata`, built in `__init__`. -/
def proof_metadata (atoma_model_id : String) : Json :=
  .obj [("proof_type", .str proofTypeStr),
        ("version", .str proofVersionStr),
        ("generator", .str "DrSui-ZK-Proof-System"),
        ("atoma_model_id", .str atoma_model_id)]

/-- Big-endian 8-byte encoding of a timestamp:
`timestamp.to_bytes(8, 'big')`. -/
def toBytesBE8 (t : Nat) : Bytes :=
  [t / 256 ^ 7 % 256, t / 256 ^ 6 % 256, t / 256 ^ 5 % 256, t / 256 ^ 4 % 256,
   t / 256 ^ 3 % 256, t / 256 ^ 2 % 256, t / 256 % 256, t % 256]

/-- Embedding of `ZKProofGenerator.generate_image_commitment`.
`sha3` models `SHA3_256.new(...).digest()`; the generation-time value
(`int(time.time())`) and the fresh 16-byte salt (`secrets.token_bytes(16)`)
are ambient effects passed in explicitly. -/
def generate_image_commitment (sha3 : Bytes → Bytes) (image_bytes : Bytes)
    (timestamp : Nat) (salt : Bytes) : String :=
  let image_hash := sha3 image_bytes
  let commitment_data := image_hash ++ toBytesBE8 timestamp ++ salt
  bytesHex (sha3 commitment_data)

/-- The `analysis_hash` computed inside `generate_analysis_proof`:
`SHA256.new(json.dumps(ai_response, sort_keys=True).encode('utf-8')).hexdigest()`. -/
def analysisHash (sha256 : Bytes → Bytes) (ai_response : Json) : String :=
  bytesHex (sha256 (utf8Encode (Json.dumps ai_response)))

/-- The `proof_payload` dict literal signed by `generate_analysis_proof`
(source key order). -/
def proofPayload (atoma_model_id image_commitment analysis_hash : String)
    (timestamp : Int) (nonce : String) : Json :=
  .obj [("proof_type", .str proofTypeStr),
        ("version", .str proofVersionStr),
        ("image_commitment", .str image_commitment),
        ("analysis_hash", .str analysis_hash),
        ("model_id", .str atoma_model_id),
        ("timestamp", .int timestamp),
        ("nonce", .str nonce)]

/-- Embedding of `ZKProofGenerator.generate_analysis_proof`.
`sha256` models `SHA256.new(...).digest()`; `key` is the generator's keypair;
the random nonce (`secrets.token_hex(16)`) and the timestamp default
(`int(time.time())`) are ambient effects passed in explicitly. -/
def generate_analysis_proof (sha256 : Bytes → Bytes) (key : ECCKey)
    (atoma_model_id : String) (image_commitment : String) (ai_response : Json)
    (timestamp : Int) (nonce : String) : Json :=
  let analysis_hash := analysisHash sha256 ai_response
  let payload := proofPayload atoma_model_id image_commitment analysis_hash timestamp nonce
  let payload_hash := sha256 (utf8Encode (Json.dumps payload))
  let signature := dssSign key payload_hash
  let signature_b58 := b58encode signature
  let public_key_pem := exportPem key.publicKey
  let public_key_b58 := b58encode (utf8Encode public_key_pem)
  .obj [("proof_type", .str proofTypeStr),
        ("version", .str proofVersionStr),
        ("image_commitment", .str image_commitment),
        ("analysis_hash", .str analysis_hash),
        ("model_id", .str atoma_model_id),
        ("timestamp", .int timestamp),
        ("signature", .str signature_b58),
        ("public_key", .str public_key_b58),
        ("nonce", .str nonce),
        ("metadata", proof_metadata atoma_model_id)]

/-- The `proof_payload` dict rebuilt inside `verify_proof` from the proof's
own fields (source key order; a missing field is Python `None`). -/
def verifyPayload (proof : Json) : Json :=
  .obj [("proof_type", (jsonGet proof "proof_type").getD .null),
        ("version", (jsonGet proof "version").getD .null),
        ("image_commitment", (jsonGet proof "image_commitment").getD .null),
        ("analysis_hash", (jsonGet proof "analysis_hash").getD .null),
        ("model_id", (jsonGet proof "model_id").getD .null),
        ("timestamp", (jsonGet proof "timestamp").getD .null),
        ("nonce", (jsonGet proof "nonce").getD .null)]

/-- The Base58/PEM decoding steps of `verify_proof`
(`b58decode`, `bytes.decode('utf-8')`, `ECC.import_key`): any failure — or a
non-string field, on which `b58decode` raises — is caught by the inner
handler and yields `none` (then `False`). -/
def decodeSigAndKey (sigJ pkJ : Option Json) : Option (Bytes × ECCKey) :=
  match sigJ, pkJ with
  | some (.str s), some (.str p) =>
    match b58decode s with
    | some signature =>
      match b58decode p with
      | some pem_bytes =>
        match utf8Decode pem_bytes with
        | some pem =>
          match importKey pem with
          | some public_key => some (signature, public_key)
          | none => none
        | none => none
      | none => none
    | none => none
  | _, _ => none

/-- Model of the Python truthiness test `if expected_commitment:` on an
`Optional[str]`: `None` and `""` are falsy. -/
def truthyStrOpt : Option String → Bool
  | none => false
  | some s => s != ""

/-- Model of `proof.get("image_commitment") == expected_commitment` where the
right-hand side is a `str`: in Python a missing field (`None`) or a
non-string value never equals a string. -/
def commitmentEq (v : Option Json) (e : String) : Bool :=
  match v with
  | some (.str s) => s == e
  | _ => false

/-- Embedding of `ZKProofGenerator.verify_proof`.  Total by construction:
every exception path of the source (missing or falsy fields, decode and key
load failures, `.get` on a non-dict, signature mismatch) is an explicit
`false` result, mirroring the source's handlers. -/
def verify_proof (sha256 : Bytes → Bytes) (proof : Json)
    (expected_commitment : Option String) : Bool :=
  let signature_b58 := jsonGet proof "signature"
  let public_key_b58 := jsonGet proof "public_key"
  if !truthy signature_b58 || !truthy public_key_b58 then false
  else
    match decodeSigAndKey signature_b58 public_key_b58 with
    | none => false
    | some (signature, public_key) =>
      let payload_hash := sha256 (utf8Encode (Json.dumps (verifyPayload proof)))
      let signature_valid := dssVerify public_key payload_hash signature
      let commitment_valid :=
        if truthyStrOpt expected_commitment then
          commitmentEq (jsonGet proof "image_commitment") (expected_commitment.getD "")
        else true
      signature_valid && commitment_valid

/-- Embedding of `ZKProofGenerator._generate_enclave_measurement`. -/
def generate_enclave_measurement (sha256 : Bytes → Bytes) (atoma_model_id : String) : String :=
  bytesHex (sha256 (utf8Encode (atoma_model_id ++ "-enclave-v1")))

/-- The `tee_attestation` dict literal built by `create_atoma_tee_proof`. -/
def teeAttestation (sha256 : Bytes → Bytes) (atoma_model_id : String)
    (attestation_timestamp : Int) : Json :=
  .obj [("tee_type", .str "atoma-secure-enclave"),
        ("enclave_id", .str ("atoma-tee-" ++ atoma_model_id)),
        ("attestation_version", .str "1.0"),
        ("enclave_measurement", .str (generate_enclave_measurement sha256 atoma_model_id)),
        ("remote_attestation", .obj
          [("attested", .bool true),
           ("attestation_timestamp", .int attestation_timestamp),
           ("attestation_provider", .str "atoma-tee-service"),
           ("attestation_signature", .str "simulated-for-development")]),
        ("security_properties", .obj
          [("memory_encryption", .bool true),
           ("code_integrity", .bool true),
           ("remote_attestation", .bool true),
           ("secure_boot", .bool true)])]

/-- Embedding of `ZKProofGenerator.create_atoma_tee_proof`.  The `{**base,
...}` merge replaces `proof_type` in place and appends the two new keys, as
Python dict merging does.  Ambient time (commitment timestamp, attestation
timestamp), salt and nonce are passed in explicitly. -/
def create_atoma_tee_proof (sha256 sha3 : Bytes → Bytes) (key : ECCKey)
    (atoma_model_id : String) (analysis_data : Json) (commit_timestamp : Nat)
    (salt : Bytes) (timestamp : Int) (nonce : String)
    (attestation_timestamp : Int) : Json :=
  let analysis_commitment :=
    generate_image_commitment sha3 (utf8Encode (Json.dumps analysis_data))
      commit_timestamp salt
  let base_proof :=
    generate_analysis_proof sha256 key atoma_model_id analysis_commitment
      analysis_data timestamp nonce
  objSet (objSet (objSet base_proof
      "tee_attestation" (teeAttestation sha256 atoma_model_id attestation_timestamp))
      "proof_type" (.str "zk_medical_analysis_tee"))
      "computation_environment" (.str "trusted_execution_environment")

/-- Embedding of `create_proof_for_blockchain`: canonical JSON text as
UTF-8 bytes. -/
def create_proof_for_blockchain (zk_proof : Json) : Bytes :=
  utf8Encode (Json.dumps zk_proof)

/-- Embedding of `deserialize_proof_from_blockchain`: UTF-8 decode then
`json.loads` (the raised `ValueError` on malformed bytes is `none`). -/
def deserialize_proof_from_blockchain (proof_bytes : Bytes) : Option Json :=
  match utf8Decode proof_bytes with
  | some s => Json.loads s.data
  | none => none

/-- The proof fields whose values determine the `verify_proof` verdict: the
signed payload subset plus the signature and embedded public key. -/
def protectedKeys : List String :=
  ["proof_type", "version", "image_commitment", "analysis_hash",
   "model_id", "timestamp", "nonce", "signature", "public_key"]

/-! ## Basic lemmas about entry lists and canonical forms -/

theorem lookupKV_setKV_ne (kvs : List (String × Json)) (k k' : String) (v : Json)
    (h : k' ≠ k) : lookupKV (setKV kvs k v) k' = lookupKV kvs k' := by
  induction kvs with
  | nil =>
    have hne : ¬k = k' := fun hh => h hh.symm
    simp [setKV, lookupKV, hne]
  | cons kv r ih =>
    obtain ⟨k0, v0⟩ := kv
    by_cases h0 : k0 = k
    · subst h0
      have hne : ¬k0 = k' := fun hh => h hh.symm
      simp [setKV, lookupKV, hne]
    · simp [setKV, lookupKV, h0, ih]

theorem lookupKV_delKV_ne (kvs : List (String × Json)) (k k' : String)
    (h : k' ≠ k) : lookupKV (delKV kvs k) k' = lookupKV kvs k' := by
  induction kvs with
  | nil => simp [delKV]
  | cons kv r ih =>
    obtain ⟨k0, v0⟩ := kv
    by_cases h0 : k0 = k
    · subst h0
      have hne : ¬k0 = k' := fun hh => h hh.symm
      simp [delKV, lookupKV, hne]
    · simp [delKV, lookupKV, h0, ih]

theorem jsonGet_objSet_ne (p : Json) (k k' : String) (v : Json) (h : k' ≠ k) :
    jsonGet (objSet p k v) k' = jsonGet p k' := by
  cases p <;> simp [objSet, jsonGet]
  exact lookupKV_setKV_ne _ _ _ _ h

theorem jsonGet_objDel_ne (p : Json) (k k' : String) (h : k' ≠ k) :
    jsonGet (objDel p k) k' = jsonGet p k' := by
  cases p <;> simp [objDel, jsonGet]
  exact lookupKV_delKV_ne _ _ _ h

theorem hasKey_iff_mem (kvs : List (String × Json)) (k : String) :
    hasKey kvs k = true ↔ k ∈ kvs.map Prod.fst := by
  induction kvs with
  | nil => simp [hasKey]
  | cons kv r ih =>
    obtain ⟨k0, v0⟩ := kv
    simp only [hasKey, Bool.or_eq_true, beq_iff_eq, ih, List.map_cons, List.mem_cons]
    constructor
    · rintro (h | h)
      · exact Or.inl h.symm
      · exact Or.inr h
    · rintro (h | h)
      · exact Or.inl h.symm
      · exact Or.inr h

theorem lookupKV_eq_none_iff (kvs : List (String × Json)) (k : String) :
    lookupKV kvs k = none ↔ k ∉ kvs.map Prod.fst := by
  induction kvs with
  | nil => simp [lookupKV]
  | cons kv r ih =>
    obtain ⟨k0, v0⟩ := kv
    by_cases h : k0 = k
    · subst h; simp [lookupKV]
    · simp [lookupKV, h, ih, Ne.symm h]

theorem lookupKV_eq_some_of_mem (kvs : List (String × Json)) (k : String) (v : Json)
    (hnd : nodupKeys kvs = true) (hmem : (k, v) ∈ kvs) :
    lookupKV kvs k = some v := by
  induction kvs with
  | nil => simp at hmem
  | cons kv r ih =>
    obtain ⟨k0, v0⟩ := kv
    simp only [nodupKeys, Bool.and_eq_true, Bool.not_eq_true'] at hnd
    rcases List.mem_cons.mp hmem with h | h
    · obtain ⟨h1, h2⟩ := Prod.mk.injEq .. ▸ h
      simp [lookupKV, h1.symm, h2]
    · have hk0 : k0 ≠ k := by
        intro he
        subst he
        have : k0 ∈ r.map Prod.fst := List.mem_map.mpr ⟨(k0, v), h, rfl⟩
        rw [← hasKey_iff_mem] at this
        simp [this] at hnd
      simp [lookupKV, hk0, ih hnd.2 h]

theorem mem_of_lookupKV_eq_some (kvs : List (String × Json)) (k : String) (v : Json)
    (h : lookupKV kvs k = some v) : (k, v) ∈ kvs := by
  induction kvs with
  | nil => simp [lookupKV] at h
  | cons kv r ih =>
    obtain ⟨k0, v0⟩ := kv
    by_cases h0 : k0 = k
    · subst h0
      simp [lookupKV] at h
      simp [h]
    · simp [lookupKV, h0] at h
      exact List.mem_cons_of_mem _ (ih h)

theorem nodupKeys_iff (kvs : List (String × Json)) :
    nodupKeys kvs = true ↔ (kvs.map Prod.fst).Nodup := by
  induction kvs with
  | nil => simp [nodupKeys]
  | cons kv r ih =>
    obtain ⟨k0, v0⟩ := kv
    simp only [nodupKeys, Bool.and_eq_true, Bool.not_eq_true', List.map_cons,
      List.nodup_cons, ← ih]
    constructor
    · rintro ⟨h1, h2⟩
      exact ⟨fun hm => by simp [(hasKey_iff_mem r k0).mpr hm] at h1, h2⟩
    · rintro ⟨h1, h2⟩
      refine ⟨?_, h2⟩
      by_cases hh : hasKey r k0 = true
      · exact absurd ((hasKey_iff_mem r k0).mp hh) h1
      · simpa using hh

theorem nodupKeys_perm (kvs kvs' : List (String × Json)) (hperm : kvs.Perm kvs')
    (hnd : nodupKeys kvs = true) : nodupKeys kvs' = true := by
  rw [nodupKeys_iff] at hnd ⊢
  exact (hperm.map Prod.fst).nodup_iff.mp hnd

theorem lookupKV_perm (kvs kvs' : List (String × Json)) (k : String)
    (hperm : kvs.Perm kvs') (hnd : nodupKeys kvs = true) :
    lookupKV kvs k = lookupKV kvs' k := by
  cases hv : lookupKV kvs k with
  | none =>
    rw [lookupKV_eq_none_iff] at hv
    rw [eq_comm, lookupKV_eq_none_iff]
    exact fun hm => hv ((hperm.map Prod.fst).mem_iff.mpr hm)
  | some v =>
    have hmem : (k, v) ∈ kvs' := hperm.mem_iff.mp (mem_of_lookupKV_eq_some _ _ _ hv)
    rw [eq_comm]
    exact lookupKV_eq_some_of_mem _ _ _ (nodupKeys_perm _ _ hperm hnd) hmem

theorem charsLe_antisymm (x y : List Char) (hxy : charsLe x y = true)
    (hyx : charsLe y x = true) : x = y := by
  induction x generalizing y with
  | nil =>
    cases y with
    | nil => rfl
    | cons c2 r2 => exact absurd hyx (by simp [charsLe])
  | cons c1 r1 ih =>
    cases y with
    | nil => exact absurd hxy (by simp [charsLe])
    | cons c2 r2 =>
      simp only [charsLe] at hxy hyx
      by_cases h12 : c1.toNat < c2.toNat
      · simp [h12, show ¬c2.toNat < c1.toNat by omega] at hyx
      · by_cases h21 : c2.toNat < c1.toNat
        · simp [h21, h12] at hxy
        · have hc : c1 = c2 := by
            have hnn : c1.toNat = c2.toNat := by omega
            have h2 : Char.ofNat c1.toNat = Char.ofNat c2.toNat := by rw [hnn]
            rwa [Char.ofNat_toNat, Char.ofNat_toNat] at h2
          simp [h12, h21] at hxy hyx
          rw [hc, ih r2 hxy hyx]

theorem sorted_nodupKeys_eq : ∀ (l1 l2 : List (String × Json)), l1.Perm l2 →
    l1.Sorted keyLe → l2.Sorted keyLe → nodupKeys l1 = true → l1 = l2 := by
  intro l1
  induction l1 with
  | nil => intro l2 hp _ _ _; exact hp.nil_eq
  | cons hd t ih =>
    intro l2 hp hs1 hs2 hnd
    obtain ⟨k, v⟩ := hd
    cases l2 with
    | nil => exact absurd hp.symm.nil_eq (by simp)
    | cons hd2 t2 =>
      obtain ⟨k2, v2⟩ := hd2
      by_cases heq : ((k, v) : String × Json) = (k2, v2)
      · rw [← heq] at hp hs2 ⊢
        have hpt : t.Perm t2 := hp.cons_inv
        have ht : t = t2 := by
          refine ih t2 hpt (List.sorted_cons.mp hs1).2 (List.sorted_cons.mp hs2).2 ?_
          simp only [nodupKeys, Bool.and_eq_true] at hnd
          exact hnd.2
        rw [ht]
      · have h2mem : ((k2, v2) : String × Json) ∈ (k, v) :: t :=
          hp.mem_iff.mpr (List.mem_cons_self _ _)
        have h1mem : ((k, v) : String × Json) ∈ (k2, v2) :: t2 :=
          hp.mem_iff.mp (List.mem_cons_self _ _)
        have h2t : ((k2, v2) : String × Json) ∈ t := by
          rcases List.mem_cons.mp h2mem with hh | hh
          · exact absurd hh.symm heq
          · exact hh
        have h1t2 : ((k, v) : String × Json) ∈ t2 := by
          rcases List.mem_cons.mp h1mem with hh | hh
          · exact absurd hh heq
          · exact hh
        have hk12 : charsLe k.data k2.data = true := (List.sorted_cons.mp hs1).1 _ h2t
        have hk21 : charsLe k2.data k.data = true := (List.sorted_cons.mp hs2).1 _ h1t2
        have hkk : k = k2 := by
          have hd : k.data = k2.data := charsLe_antisymm _ _ hk12 hk21
          cases k
          cases k2
          exact congrArg String.mk hd
        subst hkk
        have hbad : hasKey t k = true :=
          (hasKey_iff_mem t k).mpr (List.mem_map.mpr ⟨(k, v2), h2t, rfl⟩)
        simp [nodupKeys, hbad] at hnd

theorem sortKvs_perm (kvs : List (String × Json)) : (sortKvs kvs).Perm kvs :=
  List.perm_insertionSort keyLe kvs

theorem sortKvs_sorted (kvs : List (String × Json)) : (sortKvs kvs).Sorted keyLe :=
  List.sorted_insertionSort keyLe kvs

theorem sortKvs_of_sorted {kvs : List (String × Json)} (h : kvs.Sorted keyLe) :
    sortKvs kvs = kvs :=
  List.Sorted.insertionSort_eq h

theorem sortKvs_idem (kvs : List (String × Json)) :
    sortKvs (sortKvs kvs) = sortKvs kvs :=
  sortKvs_of_sorted (sortKvs_sorted kvs)

/-- Two permuted entry lists with pairwise distinct keys sort identically:
sorting forgets exactly the insertion order of a Python dict. -/
theorem sortKvs_perm_eq (kvs kvs' : List (String × Json)) (hperm : kvs.Perm kvs')
    (hnd : nodupKeys kvs = true) : sortKvs kvs = sortKvs kvs' := by
  refine sorted_nodupKeys_eq _ _ ?_ (sortKvs_sorted kvs) (sortKvs_sorted kvs') ?_
  · exact (sortKvs_perm kvs).trans (hperm.trans (sortKvs_perm kvs').symm)
  · exact nodupKeys_perm _ _ (sortKvs_perm kvs).symm hnd

/-- Structural induction on `Json` giving the inductive hypothesis at every
object entry. -/
theorem Json.inductionOn {P : Json → Prop} (hnull : P .null)
    (hbool : ∀ b, P (.bool b)) (hint : ∀ n, P (.int n)) (hstr : ∀ s, P (.str s))
    (hobj : ∀ kvs, (∀ kv ∈ kvs, P kv.2) → P (.obj kvs)) : ∀ v, P v
  | .null => hnull
  | .bool b => hbool b
  | .int n => hint n
  | .str s => hstr s
  | .obj kvs => hobj kvs (fun kv _hkv =>
      Json.inductionOn hnull hbool hint hstr hobj kv.2)
termination_by v => sizeOf v
decreasing_by
  have h1 : sizeOf kv < sizeOf kvs := List.sizeOf_lt_of_mem _hkv
  obtain ⟨a, b⟩ := kv
  simp only [Prod.mk.sizeOf_spec] at h1
  simp only [Json.obj.sizeOf_spec]
  omega

theorem canonList_eq_map (kvs : List (String × Json)) :
    Json.canonList kvs = kvs.map (fun kv => (kv.1, Json.canon kv.2)) := by
  induction kvs with
  | nil => simp [Json.canonList]
  | cons kv r ih =>
    obtain ⟨k, v⟩ := kv
    simp [Json.canonList, ih]

theorem canonList_of_fixed (l : List (String × Json))
    (h : ∀ kv ∈ l, Json.canon kv.2 = kv.2) : Json.canonList l = l := by
  induction l with
  | nil => simp [Json.canonList]
  | cons kv r ih =>
    obtain ⟨k, v⟩ := kv
    simp only [Json.canonList]
    rw [h (k, v) (List.mem_cons_self _ _), ih (fun kv hkv => h kv (List.mem_cons_of_mem _ hkv))]

theorem hasKey_canonList (l : List (String × Json)) (k : String) :
    hasKey (Json.canonList l) k = hasKey l k := by
  induction l with
  | nil => simp [Json.canonList]
  | cons kv r ih =>
    obtain ⟨k0, v0⟩ := kv
    simp [Json.canonList, hasKey, ih]

theorem nodupKeys_canonList (l : List (String × Json)) :
    nodupKeys (Json.canonList l) = nodupKeys l := by
  induction l with
  | nil => simp [Json.canonList]
  | cons kv r ih =>
    obtain ⟨k0, v0⟩ := kv
    simp [Json.canonList, nodupKeys, hasKey_canonList, ih]

/-- Canonicalization is idempotent. -/
theorem canon_idem : ∀ v, Json.canon (Json.canon v) = Json.canon v := by
  refine Json.inductionOn rfl (fun _ => rfl) (fun _ => rfl) (fun _ => rfl) ?_
  intro kvs ih
  simp only [Json.canon]
  have hfix : ∀ kv ∈ sortKvs (Json.canonList kvs), Json.canon kv.2 = kv.2 := by
    intro kv hkv
    have hmem : kv ∈ Json.canonList kvs := (sortKvs_perm _).mem_iff.mp hkv
    rw [canonList_eq_map] at hmem
    obtain ⟨kv0, hkv0, hkveq⟩ := List.mem_map.mp hmem
    rw [← hkveq]
    exact ih kv0 hkv0
  rw [canonList_of_fixed _ hfix, sortKvs_idem]

/-! ## Round trip of the canonical serializer and the parser -/

theorem isDigit_toNat_bounds (c : Char) (h : c.isDigit = true) :
    48 ≤ c.toNat ∧ c.toNat ≤ 57 := by
  simp [Char.isDigit, Char.le_def] at h
  exact h

theorem isDigit_not_marker (c : Char) (h : c.isDigit = true) :
    c ≠ 'n' ∧ c ≠ 't' ∧ c ≠ 'f' ∧ c ≠ '\"' ∧ c ≠ '\x7b' ∧ c ≠ '-' := by
  refine ⟨?_, ?_, ?_, ?_, ?_, ?_⟩ <;>
    (intro he; subst he; exact absurd h (by decide))

theorem digitChar_isDigit (d : Nat) (h : d < 10) : (digitChar d).isDigit = true := by
  interval_cases d <;> decide

theorem digitChar_toNat (d : Nat) (h : d < 10) : (digitChar d).toNat = 48 + d := by
  interval_cases d <;> decide

theorem natCharsFuel_irrel (f1 : Nat) : ∀ (f2 n : Nat), n < f1 → n < f2 →
    natCharsFuel f1 n = natCharsFuel f2 n := by
  induction f1 with
  | zero => intro f2 n h1 _; omega
  | succ f1 ih =>
    intro f2 n h1 h2
    cases f2 with
    | zero => omega
    | succ f2 =>
      rw [natCharsFuel, natCharsFuel]
      split
      · rfl
      · next h =>
        have hlt : n / 10 < n := Nat.div_lt_self (by omega) (by omega)
        rw [ih f2 (n / 10) (by omega) (by omega)]

theorem natChars_unfold (n : Nat) : natChars n =
    if n < 10 then [digitChar n] else natChars (n / 10) ++ [digitChar (n % 10)] := by
  rw [natChars, natCharsFuel]
  split
  · rfl
  · next h =>
    have hlt : n / 10 < n := Nat.div_lt_self (by omega) (by omega)
    rw [natChars, natCharsFuel_irrel n (n / 10 + 1) (n / 10) (by omega) (by omega)]

theorem natChars_digits (n : Nat) : ∀ c ∈ natChars n, c.isDigit = true := by
  induction n using Nat.strong_induction_on with
  | _ n ih =>
    rw [natChars_unfold]
    split
    · next h =>
      intro c hc
      simp only [List.mem_singleton] at hc
      exact hc ▸ digitChar_isDigit n h
    · next h =>
      intro c hc
      rcases List.mem_append.mp hc with hc | hc
      · exact ih (n / 10) (Nat.div_lt_self (by omega) (by omega)) c hc
      · simp only [List.mem_singleton] at hc
        exact hc ▸ digitChar_isDigit (n % 10) (Nat.mod_lt _ (by omega))

theorem natChars_ne_nil (n : Nat) : natChars n ≠ [] := by
  rw [natChars_unfold]
  split <;> simp

theorem digitsVal_append_one (l : List Char) (c : Char) :
    digitsVal (l ++ [c]) = 10 * digitsVal l + (c.toNat - 48) := by
  simp [digitsVal, List.foldl_append]

theorem digitsVal_natChars (n : Nat) : digitsVal (natChars n) = n := by
  induction n using Nat.strong_induction_on with
  | _ n ih =>
    rw [natChars_unfold]
    split
    · next h =>
      simp [digitsVal, digitChar_toNat n h]
    · next h =>
      rw [digitsVal_append_one, ih (n / 10) (Nat.div_lt_self (by omega) (by omega)),
        digitChar_toNat (n % 10) (Nat.mod_lt _ (by omega))]
      omega

theorem takeDigits_of_digits (ds rest : List Char)
    (h1 : ∀ c ∈ ds, c.isDigit = true)
    (h2 : ∀ c, rest.head? = some c → c.isDigit = false) :
    takeDigits (ds ++ rest) = (ds, rest) := by
  induction ds with
  | nil =>
    cases rest with
    | nil => simp [takeDigits]
    | cons c r => simp [takeDigits, h2 c rfl]
  | cons c ds ih =>
    have hrec := ih (fun c hc => h1 c (List.mem_cons_of_mem _ hc))
    simp only [List.cons_append, takeDigits, h1 c (List.mem_cons_self _ _), if_true,
      List.append_eq, hrec]

theorem parseNat_natChars (n : Nat) (rest : List Char)
    (h2 : ∀ c, rest.head? = some c → c.isDigit = false) :
    parseNat (natChars n ++ rest) = some (n, rest) := by
  have ht := takeDigits_of_digits (natChars n) rest (natChars_digits n) h2
  cases hne : natChars n with
  | nil => exact absurd hne (natChars_ne_nil n)
  | cons c cs =>
    rw [hne] at ht
    rw [parseNat, ht]
    show some (digitsVal (c :: cs), rest) = some (n, rest)
    rw [← hne, digitsVal_natChars]

theorem parseStrBody_escape (s rest : List Char) :
    parseStrBody (escapeStr s ++ '\"' :: rest) = some (s, rest) := by
  induction s with
  | nil =>
    rw [show escapeStr [] ++ '\"' :: rest = '\"' :: rest by simp [escapeStr]]
    rw [parseStrBody.eq_def]
    simp
  | cons c cs ih =>
    by_cases hc : c = '\"' ∨ c = '\\'
    · rw [show escapeStr (c :: cs) ++ '\"' :: rest =
        '\\' :: c :: (escapeStr cs ++ '\"' :: rest) by simp [escapeStr, escapeChar, hc]]
      rw [parseStrBody.eq_def]
      simp [hc, ih]
    · push_neg at hc
      rw [show escapeStr (c :: cs) ++ '\"' :: rest =
        c :: (escapeStr cs ++ '\"' :: rest) by simp [escapeStr, escapeChar, hc.1, hc.2]]
      rw [parseStrBody.eq_def]
      simp [hc.1, hc.2, ih]

theorem fsize_pos (v : Json) : 1 ≤ Json.fsize v := by
  cases v <;> simp [Json.fsize]

theorem fsizeList_pos (kvs : List (String × Json)) : 1 ≤ Json.fsizeList kvs := by
  cases kvs with
  | nil => simp [Json.fsizeList]
  | cons kv r => obtain ⟨k, v⟩ := kv; simp [Json.fsizeList]; omega

theorem serEntries_head (k : String) (v : Json) (r : List (String × Json)) :
    ∃ t, Json.serEntries ((k, v) :: r) = '\"' :: t := by
  cases r with
  | nil =>
    exact ⟨escapeStr k.data ++ '\"' :: ':' :: ' ' :: Json.ser v,
      by simp [Json.serEntries, Json.serEntry]⟩
  | cons kv2 r2 =>
    refine ⟨escapeStr k.data ++ '\"' :: ':' :: ' ' :: Json.ser v ++
      ',' :: ' ' :: Json.serEntries (kv2 :: r2), ?_⟩
    obtain ⟨k2, v2⟩ := kv2
    simp [Json.serEntries, Json.serEntry]

theorem string_eta (s : String) : String.mk s.data = s := by
  cases s; rfl

/-- Parsing inverts serialization: with enough fuel, `parseVal` consumes the
serialization of any value (and `parseEntries` of any nonempty entry list)
and returns exactly that value. -/
theorem parse_ser (fuel : Nat) :
    (∀ (v : Json) (rest : List Char), Json.fsize v ≤ fuel →
      (∀ c, rest.head? = some c → c.isDigit = false) →
      parseVal fuel (Json.ser v ++ rest) = some (v, rest)) ∧
    (∀ (kvs : List (String × Json)) (rest : List Char), kvs ≠ [] →
      Json.fsizeList kvs ≤ fuel →
      parseEntries fuel (Json.serEntries kvs ++ '\x7d' :: rest) = some (kvs, rest)) := by
  induction fuel with
  | zero =>
    constructor
    · intro v rest hf _
      exact absurd hf (by have := fsize_pos v; omega)
    · intro kvs rest _ hf
      exact absurd hf (by have := fsizeList_pos kvs; omega)
  | succ fuel ih =>
    obtain ⟨ihv, ihe⟩ := ih
    constructor
    · intro v rest hf hrest
      cases v with
      | null => simp [Json.ser, parseVal]
      | bool b => cases b <;> simp [Json.ser, parseVal]
      | int n =>
        cases n with
        | ofNat m =>
          obtain ⟨c, cs, hne⟩ : ∃ c cs, natChars m = c :: cs := by
            cases h : natChars m with
            | nil => exact absurd h (natChars_ne_nil m)
            | cons c cs => exact ⟨c, cs, rfl⟩
          have hcd : c.isDigit = true := natChars_digits m c (hne ▸ List.mem_cons_self _ _)
          obtain ⟨hn1, hn2, hn3, hn4, hn5, hn6⟩ := isDigit_not_marker c hcd
          have hpn := parseNat_natChars m rest hrest
          have hser : Json.ser (.int (.ofNat m)) ++ rest = c :: (cs ++ rest) := by
            simp [Json.ser, intChars, hne]
          rw [hser]
          have hpn' : parseNat (c :: (cs ++ rest)) = some (m, rest) := by
            rw [show c :: (cs ++ rest) = (c :: cs) ++ rest by simp, ← hne]
            exact hpn
          simp [parseVal, hn1, hn2, hn3, hn4, hn5, hn6, hcd, hpn']
        | negSucc m =>
          have hpn := parseNat_natChars (m + 1) rest hrest
          have hser : Json.ser (.int (.negSucc m)) ++ rest =
              '-' :: (natChars (m + 1) ++ rest) := by
            simp [Json.ser, intChars]
          rw [hser]
          simp [parseVal, hpn, Int.negSucc_eq]
      | str s =>
        obtain ⟨sd⟩ := s
        have h : Json.ser (.str ⟨sd⟩) ++ rest = '\"' :: (escapeStr sd ++ '\"' :: rest) := by
          simp [Json.ser]
        rw [h]
        simp [parseVal, parseStrBody_escape]
      | obj kvs =>
        cases kvs with
        | nil => simp [Json.ser, Json.serEntries, parseVal]
        | cons kv r =>
          obtain ⟨k, v0⟩ := kv
          obtain ⟨t, ht⟩ := serEntries_head k v0 r
          have hfl : Json.fsizeList ((k, v0) :: r) ≤ fuel := by
            simp [Json.fsize] at hf
            omega
          have he := ihe ((k, v0) :: r) rest (by simp) hfl
          rw [ht] at he
          have hser : Json.ser (.obj ((k, v0) :: r)) ++ rest =
              '\x7b' :: ('\"' :: (t ++ '\x7d' :: rest)) := by
            simp [Json.ser, ht]
          rw [hser]
          have he' : parseEntries fuel ('\"' :: (t ++ '\x7d' :: rest)) =
              some ((k, v0) :: r, rest) := by
            rw [show '\"' :: (t ++ '\x7d' :: rest) = ('\"' :: t) ++ '\x7d' :: rest by simp]
            exact he
          simp [parseVal, he']
    · intro kvs rest hne hf
      cases kvs with
      | nil => exact absurd rfl hne
      | cons kv r =>
        obtain ⟨k, v0⟩ := kv
        cases r with
        | nil =>
          obtain ⟨kd⟩ := k
          have hfv : Json.fsize v0 ≤ fuel := by
            simp [Json.fsizeList] at hf
            omega
          have hv := ihv v0 ('\x7d' :: rest) hfv (by intro c hc; cases hc; decide)
          have hser : Json.serEntries [(⟨kd⟩, v0)] ++ '\x7d' :: rest =
              '\"' :: (escapeStr kd ++ '\"' :: (':' :: ' ' ::
                (Json.ser v0 ++ '\x7d' :: rest))) := by
            simp [Json.serEntries, Json.serEntry]
          rw [hser]
          simp [parseEntries, parseStrBody_escape, hv, string_eta]
        | cons kv2 r2 =>
          obtain ⟨kd⟩ := k
          have hfv : Json.fsize v0 ≤ fuel := by
            simp [Json.fsizeList] at hf
            omega
          have hfl : Json.fsizeList (kv2 :: r2) ≤ fuel := by
            simp [Json.fsizeList] at hf
            obtain ⟨k2, v2⟩ := kv2
            simp [Json.fsizeList] at *
            omega
          have hv := ihv v0 (',' :: ' ' :: (Json.serEntries (kv2 :: r2) ++ '\x7d' :: rest))
            hfv (by intro c hc; cases hc; decide)
          have he := ihe (kv2 :: r2) rest (by simp) hfl
          have hser : Json.serEntries ((⟨kd⟩, v0) :: kv2 :: r2) ++ '\x7d' :: rest =
              '\"' :: (escapeStr kd ++ '\"' :: (':' :: ' ' ::
                (Json.ser v0 ++ ',' :: ' ' ::
                  (Json.serEntries (kv2 :: r2) ++ '\x7d' :: rest)))) := by
            obtain ⟨k2, v2⟩ := kv2
            simp [Json.serEntries, Json.serEntry]
          rw [hser]
          simp [parseEntries, parseStrBody_escape, hv, he, string_eta]

theorem fsize_le_ser_length : ∀ v : Json, Json.fsize v ≤ (Json.ser v).length := by
  refine Json.inductionOn (by simp [Json.fsize, Json.ser])
    (fun b => by cases b <;> simp [Json.fsize, Json.ser])
    (fun n => by
      have : 1 ≤ (intChars n).length := by
        cases n with
        | ofNat m =>
          simp only [intChars]
          have := natChars_ne_nil m
          cases h : natChars m with
          | nil => exact absurd h this
          | cons c cs => simp [h]
        | negSucc m => simp [intChars]
      simpa [Json.fsize, Json.ser] using this)
    (fun s => by simp [Json.fsize, Json.ser])
    ?_
  intro kvs ih
  have hentries : ∀ (l : List (String × Json)), (∀ kv ∈ l, Json.fsize kv.2 ≤ (Json.ser kv.2).length) →
      Json.fsizeList l ≤ (Json.serEntries l).length + 1 := by
    intro l
    induction l with
    | nil => intro _; simp [Json.fsizeList, Json.serEntries]
    | cons kv r ihr =>
      intro hl
      obtain ⟨k, v⟩ := kv
      have hv : Json.fsize v ≤ (Json.ser v).length := hl (k, v) (List.mem_cons_self _ _)
      have hr : Json.fsizeList r ≤ (Json.serEntries r).length + 1 :=
        ihr (fun kv hkv => hl kv (List.mem_cons_of_mem _ hkv))
      cases r with
      | nil =>
        simp [Json.fsizeList, Json.serEntries, Json.serEntry]
        omega
      | cons kv2 r2 =>
        obtain ⟨k2, v2⟩ := kv2
        simp [Json.fsizeList, Json.serEntries, Json.serEntry] at *
        omega
  have := hentries kvs ih
  simp [Json.fsize, Json.ser]
  omega

/-- Parsing inverts dumping: `json.loads` of a `json.dumps` output gives the canonical form. -/
theorem loads_dumps (v : Json) : Json.loads (Json.dumps v).data = some (Json.canon v) := by
  have hf : Json.fsize (Json.canon v) ≤ (Json.ser (Json.canon v)).length + 1 := by
    have := fsize_le_ser_length (Json.canon v)
    omega
  have hp := (parse_ser ((Json.ser (Json.canon v)).length + 1)).1 (Json.canon v) [] hf
    (by intro c hc; simp at hc)
  rw [List.append_nil] at hp
  simp [Json.loads, Json.dumps, hp]

/-- The canonical serialization is injective up to canonical form. -/
theorem dumps_inj (v1 v2 : Json) (h : Json.dumps v1 = Json.dumps v2) :
    Json.canon v1 = Json.canon v2 := by
  have h1 := loads_dumps v1
  have h2 := loads_dumps v2
  rw [h, h2] at h1
  exact (Option.some.injEq _ _ ▸ h1).symm

/-! ## Contracts of the codec and signature models -/

theorem utf8Decode_encode (s : String) : utf8Decode (utf8Encode s) = some s := by
  have hval : ∀ b ∈ utf8Encode s, Nat.isValidChar b := by
    intro b hb
    simp only [utf8Encode, List.mem_map] at hb
    obtain ⟨c, _, hc⟩ := hb
    exact hc ▸ c.valid
  rw [utf8Decode, if_pos hval]
  simp only [utf8Encode, List.map_map]
  have : (Char.ofNat ∘ Char.toNat) = id := by
    funext c
    exact Char.ofNat_toNat c
  rw [this, List.map_id, string_eta]

theorem utf8Encode_inj (s1 s2 : String) (h : utf8Encode s1 = utf8Encode s2) : s1 = s2 := by
  have h1 := utf8Decode_encode s1
  rw [h, utf8Decode_encode s2] at h1
  exact (Option.some.injEq _ _ ▸ h1).symm

theorem utf8Encode_ne_nil (s : String) (h : s.data ≠ []) : utf8Encode s ≠ [] := by
  simp [utf8Encode, h]

theorem b58decodeL_replicate (n : Nat) (rest : List Char) (k : Nat) :
    b58decodeL (List.replicate n 'z' ++ rest) k = b58decodeL rest (k + n) := by
  induction n generalizing k with
  | zero => simp
  | succ n ih =>
    rw [List.replicate_succ, List.cons_append]
    cases rest with
    | nil =>
      rw [b58decodeL, if_pos rfl, ih]
      ring_nf
    | cons c r =>
      rw [b58decodeL, if_pos rfl, ih]
      ring_nf

theorem b58decodeL_encodeL (bs : Bytes) : b58decodeL (b58encodeL bs) 0 = some bs := by
  induction bs with
  | nil => rfl
  | cons b r ih =>
    rw [b58encodeL, b58decodeL_replicate, b58decodeL,
      if_neg (show ¬('o' : Char) = 'z' by decide), if_pos rfl, ih]
    norm_num

theorem b58decode_encode (bs : Bytes) : b58decode (b58encode bs) = some bs :=
  b58decodeL_encodeL bs

theorem b58decodeL_coh : ∀ (s : List Char) (k : Nat) (bs : Bytes),
    b58decodeL s k = some bs → List.replicate k 'z' ++ s = b58encodeL bs := by
  intro s
  induction s with
  | nil =>
    intro k bs h
    cases k with
    | zero =>
      rw [b58decodeL] at h
      cases h
      rfl
    | succ k => exact absurd h (by rw [b58decodeL]; simp)
  | cons c r ih =>
    intro k bs h
    by_cases hz : c = 'z'
    · subst hz
      rw [b58decodeL, if_pos rfl] at h
      have := ih (k + 1) bs h
      rw [← this, List.replicate_succ', List.append_assoc]
      simp
    · by_cases ho : c = 'o'
      · subst ho
        rw [b58decodeL, if_neg (by decide), if_pos rfl] at h
        cases hrec : b58decodeL r 0 with
        | none => rw [hrec] at h; cases h
        | some bs' =>
          rw [hrec] at h
          cases h
          have := ih 0 bs' hrec
          simp only [List.replicate_zero, List.nil_append] at this
          rw [b58encodeL, ← this]
      · exact absurd h (by rw [b58decodeL, if_neg hz, if_neg ho]; simp)

theorem b58decode_coh (s : String) (bs : Bytes) (h : b58decode s = some bs) :
    b58encode bs = s := by
  have := b58decodeL_coh s.data 0 bs h
  simp only [List.replicate_zero, List.nil_append] at this
  rw [b58encode, ← this, string_eta]

theorem b58encode_ne_empty (bs : Bytes) (h : bs ≠ []) : b58encode bs ≠ "" := by
  cases bs with
  | nil => exact absurd rfl h
  | cons b r =>
    rw [b58encode]
    intro hcon
    have : b58encodeL (b :: r) = [] := by
      have := congrArg String.data hcon
      simpa using this
    rw [b58encodeL] at this
    simp at this

theorem importKeyL_replicate (n : Nat) (k : Nat) :
    importKeyL (List.replicate n 'p' ++ ['P']) k = some ⟨k + n⟩ := by
  induction n generalizing k with
  | zero =>
    rw [List.replicate_zero, List.nil_append, importKeyL,
      if_neg (show ¬('P' : Char) = 'p' by decide), if_pos ⟨rfl, rfl⟩]
    norm_num
  | succ n ih =>
    rw [List.replicate_succ, List.cons_append, importKeyL, if_pos rfl, ih]
    ring_nf

theorem importKey_exportPem (k : ECCKey) : importKey (exportPem k) = some k := by
  rw [importKey, exportPem]
  show importKeyL (List.replicate k.keyId 'p' ++ ['P']) 0 = some k
  rw [importKeyL_replicate]
  norm_num

theorem exportPem_data_ne_nil (k : ECCKey) : (exportPem k).data ≠ [] := by
  rw [exportPem]
  simp

theorem dssVerify_sign (k : ECCKey) (digest : Bytes) :
    dssVerify k.publicKey digest (dssSign k digest) = true := by
  simp [dssVerify, dssSign, ECCKey.publicKey]

theorem dssVerify_eq_true_iff (pub : ECCKey) (digest sig : Bytes) :
    dssVerify pub digest sig = true ↔ sig = dssSign ⟨pub.keyId⟩ digest := by
  cases sig with
  | nil => simp [dssVerify, dssSign]
  | cons kid d => simp [dssVerify, dssSign, and_comm]

/-! ## Behaviour of `verify_proof` -/

theorem verify_eq_of_parts (sha256 : Bytes → Bytes) (p : Json) (sig58 pk58 : String)
    (e : Option String) (sig : Bytes) (pub : ECCKey) (pem : String)
    (hsig : jsonGet p "signature" = some (.str sig58))
    (hpk : jsonGet p "public_key" = some (.str pk58))
    (hsig_ne : sig58 ≠ "") (hpk_ne : pk58 ≠ "")
    (hdecs : b58decode sig58 = some sig)
    (hdecp : b58decode pk58 = some (utf8Encode pem))
    (himp : importKey pem = some pub) :
    verify_proof sha256 p e =
      (dssVerify pub (sha256 (utf8Encode (Json.dumps (verifyPayload p)))) sig &&
        (if truthyStrOpt e then commitmentEq (jsonGet p "image_commitment") (e.getD "")
         else true)) := by
  rw [verify_proof, hsig, hpk]
  rw [show truthy (some (.str sig58)) = true by simp [truthy, hsig_ne]]
  rw [show truthy (some (.str pk58)) = true by simp [truthy, hpk_ne]]
  rw [show decodeSigAndKey (some (.str sig58)) (some (.str pk58)) = some (sig, pub) by
    simp only [decodeSigAndKey, hdecs, hdecp, utf8Decode_encode, himp]]
  simp

theorem generate_signature_ne (key : ECCKey) (H : Bytes) :
    b58encode (dssSign key H) ≠ "" :=
  b58encode_ne_empty _ (by simp [dssSign])

theorem generate_public_key_ne (key : ECCKey) :
    b58encode (utf8Encode (exportPem key.publicKey)) ≠ "" :=
  b58encode_ne_empty _ (utf8Encode_ne_nil _ (exportPem_data_ne_nil _))

/-- Issuing then verifying: the verdict of `verify_proof` on an unmodified
proof from `generate_analysis_proof` depends only on the supplied expected
commitment — `true` if it is absent, empty, or equal to the proof's own
commitment. -/
theorem verify_generate (sha256 : Bytes → Bytes) (key : ECCKey) (mid c : String)
    (r : Json) (t : Int) (n : String) (e : Option String) :
    verify_proof sha256 (generate_analysis_proof sha256 key mid c r t n) e =
      match e with
      | none => true
      | some x => (x == "") || (c == x) := by
  refine Eq.trans (verify_eq_of_parts sha256 _
    (b58encode (dssSign key (sha256 (utf8Encode (Json.dumps
      (proofPayload mid c (analysisHash sha256 r) t n))))))
    (b58encode (utf8Encode (exportPem key.publicKey))) e
    (dssSign key (sha256 (utf8Encode (Json.dumps
      (proofPayload mid c (analysisHash sha256 r) t n)))))
    key.publicKey (exportPem key.publicKey)
    rfl rfl (generate_signature_ne key _) (generate_public_key_ne key)
    (b58decode_encode _) (b58decode_encode _) (importKey_exportPem _)) ?_
  rw [show sha256 (utf8Encode (Json.dumps (verifyPayload
      (generate_analysis_proof sha256 key mid c r t n)))) =
    sha256 (utf8Encode (Json.dumps
      (proofPayload mid c (analysisHash sha256 r) t n))) from rfl]
  rw [dssVerify_sign]
  rw [show jsonGet (generate_analysis_proof sha256 key mid c r t n) "image_commitment" =
    some (.str c) from rfl]
  cases e with
  | none => simp [truthyStrOpt]
  | some x =>
    by_cases hx : x = ""
    · simp [truthyStrOpt, hx]
    · simp [truthyStrOpt, hx, commitmentEq]

theorem canon_eq_str (v : Json) (s : String) (h : Json.canon v = .str s) : v = .str s := by
  cases v <;> simp [Json.canon] at h ⊢
  exact h

theorem canon_eq_int (v : Json) (m : Int) (h : Json.canon v = .int m) : v = .int m := by
  cases v <;> simp [Json.canon] at h ⊢
  exact h

theorem verify_false_of_sig_falsy (sha256 : Bytes → Bytes) (p : Json) (e : Option String)
    (h : truthy (jsonGet p "signature") = false) : verify_proof sha256 p e = false := by
  rw [verify_proof]
  simp [h]

theorem verify_false_of_pk_falsy (sha256 : Bytes → Bytes) (p : Json) (e : Option String)
    (h : truthy (jsonGet p "public_key") = false) : verify_proof sha256 p e = false := by
  rw [verify_proof]
  simp [h]

theorem verify_false_of_decode_none (sha256 : Bytes → Bytes) (p : Json) (e : Option String)
    (h : decodeSigAndKey (jsonGet p "signature") (jsonGet p "public_key") = none) :
    verify_proof sha256 p e = false := by
  rw [verify_proof]
  by_cases hb : (!truthy (jsonGet p "signature") || !truthy (jsonGet p "public_key")) = true
  · simp [hb]
  · simp [hb, h]

theorem verify_false_of_dss_false (sha256 : Bytes → Bytes) (p : Json) (e : Option String)
    (sig : Bytes) (pub : ECCKey)
    (hd : decodeSigAndKey (jsonGet p "signature") (jsonGet p "public_key") = some (sig, pub))
    (hv : dssVerify pub (sha256 (utf8Encode (Json.dumps (verifyPayload p)))) sig = false) :
    verify_proof sha256 p e = false := by
  rw [verify_proof]
  by_cases hb : (!truthy (jsonGet p "signature") || !truthy (jsonGet p "public_key")) = true
  · simp [hb]
  · simp [hb, hd, hv]

theorem decodeSigAndKey_nonstr_left (w : Json) (pkJ : Option Json)
    (h : ∀ s, w ≠ .str s) : decodeSigAndKey (some w) pkJ = none := by
  cases w with
  | str s => exact absurd rfl (h s)
  | null => cases pkJ with | none => rfl | some v => cases v <;> rfl
  | bool b => cases pkJ with | none => rfl | some v => cases v <;> rfl
  | int m => cases pkJ with | none => rfl | some v => cases v <;> rfl
  | obj kvs => cases pkJ with | none => rfl | some v => cases v <;> rfl

theorem decodeSigAndKey_b58_none (s : String) (pkJ : Option Json)
    (h : b58decode s = none) : decodeSigAndKey (some (.str s)) pkJ = none := by
  cases pkJ with
  | none => rfl
  | some v =>
    cases v with
    | str p => simp [decodeSigAndKey, h]
    | null => rfl
    | bool b => rfl
    | int m => rfl
    | obj kvs => rfl

/-- Any proof whose intact signature and public key decode to the issuer's
signature over a given payload, but whose recomputed payload differs (up to
canonical form) from the signed one, fails verification — provided the digest
is injective (the symbolic stand-in for collision resistance). -/
theorem verify_false_of_payload_changed (sha256 : Bytes → Bytes)
    (hinj : Function.Injective sha256) (key : ECCKey) (signedPayload : Json)
    (p' : Json) (e : Option String)
    (hsig : jsonGet p' "signature" = some (.str (b58encode (dssSign key
      (sha256 (utf8Encode (Json.dumps signedPayload)))))))
    (hpk : jsonGet p' "public_key" = some (.str (b58encode (utf8Encode
      (exportPem key.publicKey)))))
    (hne : Json.canon (verifyPayload p') ≠ Json.canon signedPayload) :
    verify_proof sha256 p' e = false := by
  rw [verify_eq_of_parts sha256 p' _ _ e
    (dssSign key (sha256 (utf8Encode (Json.dumps signedPayload))))
    key.publicKey (exportPem key.publicKey) hsig hpk
    (generate_signature_ne key _) (generate_public_key_ne key)
    (b58decode_encode _) (b58decode_encode _) (importKey_exportPem _)]
  have hdss : dssVerify key.publicKey
      (sha256 (utf8Encode (Json.dumps (verifyPayload p'))))
      (dssSign key (sha256 (utf8Encode (Json.dumps signedPayload)))) = false := by
    by_contra hcon
    rw [Bool.not_eq_false, dssVerify_eq_true_iff] at hcon
    have hkeys : key = ⟨key.publicKey.keyId⟩ := rfl
    rw [← hkeys] at hcon
    have hH : sha256 (utf8Encode (Json.dumps signedPayload)) =
        sha256 (utf8Encode (Json.dumps (verifyPayload p'))) := by
      have := congrArg List.tail hcon
      simpa [dssSign] using this
    have hdumps : Json.dumps signedPayload = Json.dumps (verifyPayload p') :=
      utf8Encode_inj _ _ (hinj hH)
    exact hne (dumps_inj _ _ hdumps.symm)
  rw [hdss]
  rfl

theorem canon_proofPayload (mid c h : String) (t : Int) (n : String) :
    Json.canon (proofPayload mid c h t n) =
      .obj [("analysis_hash", .str h), ("image_commitment", .str c),
            ("model_id", .str mid), ("nonce", .str n),
            ("proof_type", .str proofTypeStr), ("timestamp", .int t),
            ("version", .str proofVersionStr)] := by
  simp +decide [proofPayload, Json.canon, Json.canonList, sortKvs, List.insertionSort,
    List.orderedInsert, keyLe, proofTypeStr, proofVersionStr]

theorem verify_false_set_ic (sha256 : Bytes → Bytes)
    (hinj : Function.Injective sha256) (key : ECCKey) (mid c : String) (r : Json)
    (t : Int) (n : String) (w : Json) (e : Option String) (hw : w ≠ Json.str c) :
    verify_proof sha256 (objSet (generate_analysis_proof sha256 key mid c r t n)
      "image_commitment" w) e = false := by
  refine verify_false_of_payload_changed sha256 hinj key
    (proofPayload mid c (analysisHash sha256 r) t n) _ e rfl rfl ?_
  have h1 : verifyPayload (objSet (generate_analysis_proof sha256 key mid c r t n)
      "image_commitment" w) =
      .obj [("proof_type", .str proofTypeStr), ("version", .str proofVersionStr),
            ("image_commitment", w),
            ("analysis_hash", .str (analysisHash sha256 r)),
            ("model_id", .str mid),
            ("timestamp", .int t),
            ("nonce", .str n)] := rfl
  rw [h1, canon_proofPayload]
  rw [show Json.canon (.obj [("proof_type", .str proofTypeStr), ("version", .str proofVersionStr),
            ("image_commitment", w),
            ("analysis_hash", .str (analysisHash sha256 r)),
            ("model_id", .str mid),
            ("timestamp", .int t),
            ("nonce", .str n)]) =
      .obj [("analysis_hash", .str (analysisHash sha256 r)), ("image_commitment", Json.canon w),
            ("model_id", .str mid), ("nonce", .str n), ("proof_type", .str proofTypeStr),
            ("timestamp", .int t), ("version", .str proofVersionStr)] from by
    simp +decide [Json.canon, Json.canonList, sortKvs, List.insertionSort,
      List.orderedInsert, keyLe, proofTypeStr, proofVersionStr]]
  intro hcon
  simp only [Json.obj.injEq, List.cons.injEq, Prod.mk.injEq, and_true, true_and] at hcon
  exact hw (canon_eq_str w _ (by tauto))

theorem verify_false_set_ah (sha256 : Bytes → Bytes)
    (hinj : Function.Injective sha256) (key : ECCKey) (mid c : String) (r : Json)
    (t : Int) (n : String) (w : Json) (e : Option String) (hw : w ≠ Json.str (analysisHash sha256 r)) :
    verify_proof sha256 (objSet (generate_analysis_proof sha256 key mid c r t n)
      "analysis_hash" w) e = false := by
  refine verify_false_of_payload_changed sha256 hinj key
    (proofPayload mid c (analysisHash sha256 r) t n) _ e rfl rfl ?_
  have h1 : verifyPayload (objSet (generate_analysis_proof sha256 key mid c r t n)
      "analysis_hash" w) =
      .obj [("proof_type", .str proofTypeStr), ("version", .str proofVersionStr),
            ("image_commitment", .str c),
            ("analysis_hash", w),
            ("model_id", .str mid),
            ("timestamp", .int t),
            ("nonce", .str n)] := rfl
  rw [h1, canon_proofPayload]
  rw [show Json.canon (.obj [("proof_type", .str proofTypeStr), ("version", .str proofVersionStr),
            ("image_commitment", .str c),
            ("analysis_hash", w),
            ("model_id", .str mid),
            ("timestamp", .int t),
            ("nonce", .str n)]) =
      .obj [("analysis_hash", Json.canon w), ("image_commitment", .str c),
            ("model_id", .str mid), ("nonce", .str n), ("proof_type", .str proofTypeStr),
            ("timestamp", .int t), ("version", .str proofVersionStr)] from by
    simp +decide [Json.canon, Json.canonList, sortKvs, List.insertionSort,
      List.orderedInsert, keyLe, proofTypeStr, proofVersionStr]]
  intro hcon
  simp only [Json.obj.injEq, List.cons.injEq, Prod.mk.injEq, and_true, true_and] at hcon
  exact hw (canon_eq_str w _ (by tauto))

theorem verify_false_set_ts (sha256 : Bytes → Bytes)
    (hinj : Function.Injective sha256) (key : ECCKey) (mid c : String) (r : Json)
    (t : Int) (n : String) (w : Json) (e : Option String) (hw : w ≠ Json.int t) :
    verify_proof sha256 (objSet (generate_analysis_proof sha256 key mid c r t n)
      "timestamp" w) e = false := by
  refine verify_false_of_payload_changed sha256 hinj key
    (proofPayload mid c (analysisHash sha256 r) t n) _ e rfl rfl ?_
  have h1 : verifyPayload (objSet (generate_analysis_proof sha256 key mid c r t n)
      "timestamp" w) =
      .obj [("proof_type", .str proofTypeStr), ("version", .str proofVersionStr),
            ("image_commitment", .str c),
            ("analysis_hash", .str (analysisHash sha256 r)),
            ("model_id", .str mid),
            ("timestamp", w),
            ("nonce", .str n)] := rfl
  rw [h1, canon_proofPayload]
  rw [show Json.canon (.obj [("proof_type", .str proofTypeStr), ("version", .str proofVersionStr),
            ("image_commitment", .str c),
            ("analysis_hash", .str (analysisHash sha256 r)),
            ("model_id", .str mid),
            ("timestamp", w),
            ("nonce", .str n)]) =
      .obj [("analysis_hash", .str (analysisHash sha256 r)), ("image_commitment", .str c),
            ("model_id", .str mid), ("nonce", .str n), ("proof_type", .str proofTypeStr),
            ("timestamp", Json.canon w), ("version", .str proofVersionStr)] from by
    simp +decide [Json.canon, Json.canonList, sortKvs, List.insertionSort,
      List.orderedInsert, keyLe, proofTypeStr, proofVersionStr]]
  intro hcon
  simp only [Json.obj.injEq, List.cons.injEq, Prod.mk.injEq, and_true, true_and] at hcon
  exact hw (canon_eq_int w _ (by tauto))

theorem verify_false_set_nonce (sha256 : Bytes → Bytes)
    (hinj : Function.Injective sha256) (key : ECCKey) (mid c : String) (r : Json)
    (t : Int) (n : String) (w : Json) (e : Option String) (hw : w ≠ Json.str n) :
    verify_proof sha256 (objSet (generate_analysis_proof sha256 key mid c r t n)
      "nonce" w) e = false := by
  refine verify_false_of_payload_changed sha256 hinj key
    (proofPayload mid c (analysisHash sha256 r) t n) _ e rfl rfl ?_
  have h1 : verifyPayload (objSet (generate_analysis_proof sha256 key mid c r t n)
      "nonce" w) =
      .obj [("proof_type", .str proofTypeStr), ("version", .str proofVersionStr),
            ("image_commitment", .str c),
            ("analysis_hash", .str (analysisHash sha256 r)),
            ("model_id", .str mid),
            ("timestamp", .int t),
            ("nonce", w)] := rfl
  rw [h1, canon_proofPayload]
  rw [show Json.canon (.obj [("proof_type", .str proofTypeStr), ("version", .str proofVersionStr),
            ("image_commitment", .str c),
            ("analysis_hash", .str (analysisHash sha256 r)),
            ("model_id", .str mid),
            ("timestamp", .int t),
            ("nonce", w)]) =
      .obj [("analysis_hash", .str (analysisHash sha256 r)), ("image_commitment", .str c),
            ("model_id", .str mid), ("nonce", Json.canon w), ("proof_type", .str proofTypeStr),
            ("timestamp", .int t), ("version", .str proofVersionStr)] from by
    simp +decide [Json.canon, Json.canonList, sortKvs, List.insertionSort,
      List.orderedInsert, keyLe, proofTypeStr, proofVersionStr]]
  intro hcon
  simp only [Json.obj.injEq, List.cons.injEq, Prod.mk.injEq, and_true, true_and] at hcon
  exact hw (canon_eq_str w _ (by tauto))

theorem verify_false_set_signature (sha256 : Bytes → Bytes) (key : ECCKey)
    (mid c : String) (r : Json) (t : Int) (n : String) (w : Json) (e : Option String)
    (hw : w ≠ .str (b58encode (dssSign key (sha256 (utf8Encode (Json.dumps
      (proofPayload mid c (analysisHash sha256 r) t n))))))) :
    verify_proof sha256 (objSet (generate_analysis_proof sha256 key mid c r t n)
      "signature" w) e = false := by
  have hget : jsonGet (objSet (generate_analysis_proof sha256 key mid c r t n)
      "signature" w) "signature" = some w := rfl
  have hpk : jsonGet (objSet (generate_analysis_proof sha256 key mid c r t n)
      "signature" w) "public_key" =
      some (.str (b58encode (utf8Encode (exportPem key.publicKey)))) := rfl
  cases w with
  | str s' =>
    by_cases hs : s' = ""
    · apply verify_false_of_sig_falsy
      rw [hget, hs]
      simp [truthy]
    · cases hdec : b58decode s' with
      | none =>
        apply verify_false_of_decode_none
        rw [hget, hpk]
        exact decodeSigAndKey_b58_none _ _ hdec
      | some bs =>
        apply verify_false_of_dss_false sha256 _ e bs key.publicKey
        · rw [hget, hpk]
          simp only [decodeSigAndKey, hdec, b58decode_encode, utf8Decode_encode,
            importKey_exportPem]
        · have hpay : verifyPayload (objSet (generate_analysis_proof sha256 key mid c r t n)
              "signature" (.str s')) = proofPayload mid c (analysisHash sha256 r) t n := rfl
          rw [hpay]
          by_contra hcon
          rw [Bool.not_eq_false, dssVerify_eq_true_iff] at hcon
          have hkeys : (⟨key.publicKey.keyId⟩ : ECCKey) = key := rfl
          rw [hkeys] at hcon
          have hdec' : b58decode s' = some (dssSign key (sha256 (utf8Encode (Json.dumps
              (proofPayload mid c (analysisHash sha256 r) t n))))) := by
            rw [hdec, hcon]
          have := b58decode_coh s' _ hdec'
          exact hw (by rw [← this])
  | null =>
    apply verify_false_of_sig_falsy
    rw [hget]
    rfl
  | bool b =>
    cases b with
    | false =>
      apply verify_false_of_sig_falsy
      rw [hget]
      rfl
    | true =>
      apply verify_false_of_decode_none
      rw [hget, hpk]
      exact decodeSigAndKey_nonstr_left _ _ (fun s => by simp)
  | int m =>
    by_cases hm : m = 0
    · apply verify_false_of_sig_falsy
      rw [hget, hm]
      simp [truthy]
    · apply verify_false_of_decode_none
      rw [hget, hpk]
      exact decodeSigAndKey_nonstr_left _ _ (fun s => by simp)
  | obj kvs =>
    cases kvs with
    | nil =>
      apply verify_false_of_sig_falsy
      rw [hget]
      simp [truthy]
    | cons kv rest =>
      apply verify_false_of_decode_none
      rw [hget, hpk]
      exact decodeSigAndKey_nonstr_left _ _ (fun s => by simp)

/-- The `verify_proof` verdict is a function of the nine protected fields
alone. -/
theorem verify_congr (sha256 : Bytes → Bytes) (p q : Json) (e : Option String)
    (h : ∀ k ∈ protectedKeys, jsonGet p k = jsonGet q k) :
    verify_proof sha256 p e = verify_proof sha256 q e := by
  have h1 := h "proof_type" (by simp [protectedKeys])
  have h2 := h "version" (by simp [protectedKeys])
  have h3 := h "image_commitment" (by simp [protectedKeys])
  have h4 := h "analysis_hash" (by simp [protectedKeys])
  have h5 := h "model_id" (by simp [protectedKeys])
  have h6 := h "timestamp" (by simp [protectedKeys])
  have h7 := h "nonce" (by simp [protectedKeys])
  have h8 := h "signature" (by simp [protectedKeys])
  have h9 := h "public_key" (by simp [protectedKeys])
  simp only [verify_proof, verifyPayload, h1, h2, h3, h4, h5, h6, h7, h8, h9]

theorem lookupKV_canonList (kvs : List (String × Json)) (k : String) :
    lookupKV (Json.canonList kvs) k = (lookupKV kvs k).map Json.canon := by
  induction kvs with
  | nil => simp [Json.canonList, lookupKV]
  | cons kv r ih =>
    obtain ⟨k0, v0⟩ := kv
    by_cases h : k0 = k
    · simp [Json.canonList, lookupKV, h]
    · simp [Json.canonList, lookupKV, h, ih]

theorem jsonGet_canon (p : Json) (hwf : Json.wfB p = true) (k : String) :
    jsonGet (Json.canon p) k = (jsonGet p k).map Json.canon := by
  cases p with
  | obj kvs =>
    simp only [Json.wfB, Bool.and_eq_true] at hwf
    have hnd : nodupKeys (Json.canonList kvs) = true := by
      rw [nodupKeys_canonList]
      exact hwf.1
    show lookupKV (sortKvs (Json.canonList kvs)) k = (lookupKV kvs k).map Json.canon
    have hp := lookupKV_perm (sortKvs (Json.canonList kvs)) (Json.canonList kvs) k
      (sortKvs_perm _) (nodupKeys_perm _ _ (sortKvs_perm _).symm hnd)
    rw [hp, lookupKV_canonList]
  | null => rfl
  | bool b => rfl
  | int m => rfl
  | str s => rfl

theorem truthy_map_canon (o : Option Json) :
    truthy (o.map Json.canon) = truthy o := by
  cases o with
  | none => rfl
  | some v =>
    cases v with
    | obj kvs =>
      show truthy (some (.obj (sortKvs (Json.canonList kvs)))) = truthy (some (.obj kvs))
      have hlen : (sortKvs (Json.canonList kvs)).length = kvs.length := by
        rw [(sortKvs_perm _).length_eq, canonList_eq_map, List.length_map]
      cases kvs with
      | nil => rfl
      | cons kv r =>
        have h2 : (sortKvs (Json.canonList (kv :: r))).isEmpty = false := by
          cases hc : sortKvs (Json.canonList (kv :: r)) with
          | nil => rw [hc] at hlen; simp at hlen
          | cons a b => rfl
        simp [truthy, h2]
    | null => rfl
    | bool b => rfl
    | int m => rfl
    | str s => rfl

theorem decodeSigAndKey_map_canon (o1 o2 : Option Json) :
    decodeSigAndKey (o1.map Json.canon) (o2.map Json.canon) = decodeSigAndKey o1 o2 := by
  cases o1 with
  | none => rfl
  | some v1 =>
    cases o2 with
    | none => cases v1 <;> simp [decodeSigAndKey, Json.canon]
    | some v2 => cases v1 <;> cases v2 <;> simp [decodeSigAndKey, Json.canon]

theorem commitmentEq_map_canon (o : Option Json) (e : String) :
    commitmentEq (o.map Json.canon) e = commitmentEq o e := by
  cases o with
  | none => rfl
  | some v => cases v <;> simp [commitmentEq, Json.canon]

theorem canonList_idem (l : List (String × Json)) :
    Json.canonList (Json.canonList l) = Json.canonList l := by
  induction l with
  | nil => simp [Json.canonList]
  | cons kv r ih =>
    obtain ⟨k, v⟩ := kv
    simp [Json.canonList, canon_idem, ih]

theorem dumps_obj_canonList (E : List (String × Json)) :
    Json.dumps (.obj (Json.canonList E)) = Json.dumps (.obj E) := by
  rw [Json.dumps, Json.dumps]
  rw [show Json.canon (.obj (Json.canonList E)) = .obj (sortKvs (Json.canonList
    (Json.canonList E))) from by simp [Json.canon]]
  rw [show Json.canon (.obj E) = .obj (sortKvs (Json.canonList E)) from by
    simp [Json.canon]]
  rw [canonList_idem]

theorem getD_map_canon (o : Option Json) :
    (o.map Json.canon).getD .null = Json.canon (o.getD .null) := by
  cases o with
  | none => simp [Json.canon]
  | some v => rfl

theorem dumps_verifyPayload_canon (p : Json) (hwf : Json.wfB p = true) :
    Json.dumps (verifyPayload (Json.canon p)) = Json.dumps (verifyPayload p) := by
  have hvp : verifyPayload (Json.canon p) =
      .obj (Json.canonList [("proof_type", (jsonGet p "proof_type").getD .null),
        ("version", (jsonGet p "version").getD .null),
        ("image_commitment", (jsonGet p "image_commitment").getD .null),
        ("analysis_hash", (jsonGet p "analysis_hash").getD .null),
        ("model_id", (jsonGet p "model_id").getD .null),
        ("timestamp", (jsonGet p "timestamp").getD .null),
        ("nonce", (jsonGet p "nonce").getD .null)]) := by
    rw [verifyPayload]
    simp only [jsonGet_canon p hwf, getD_map_canon, Json.canonList]
  rw [hvp, dumps_obj_canonList]
  rfl

/-- On well-formed records, canonicalization does not change the
`verify_proof` verdict. -/
theorem verify_canon (sha256 : Bytes → Bytes) (p : Json) (e : Option String)
    (hwf : Json.wfB p = true) :
    verify_proof sha256 (Json.canon p) e = verify_proof sha256 p e := by
  rw [verify_proof, verify_proof]
  rw [jsonGet_canon p hwf "signature", jsonGet_canon p hwf "public_key",
    truthy_map_canon, truthy_map_canon, decodeSigAndKey_map_canon]
  rw [show Json.dumps (verifyPayload (Json.canon p)) = Json.dumps (verifyPayload p) from
    dumps_verifyPayload_canon p hwf]
  rw [jsonGet_canon p hwf "image_commitment", commitmentEq_map_canon]

/-- The canonical serialization of an object with pairwise distinct keys is
invariant under permuting its entries. -/
theorem dumps_obj_perm (kvs1 kvs2 : List (String × Json)) (hperm : kvs1.Perm kvs2)
    (hnd : nodupKeys kvs1 = true) :
    Json.dumps (.obj kvs1) = Json.dumps (.obj kvs2) := by
  rw [Json.dumps, Json.dumps]
  rw [show Json.canon (.obj kvs1) = .obj (sortKvs (Json.canonList kvs1)) from by
    simp [Json.canon]]
  rw [show Json.canon (.obj kvs2) = .obj (sortKvs (Json.canonList kvs2)) from by
    simp [Json.canon]]
  have hperm' : (Json.canonList kvs1).Perm (Json.canonList kvs2) := by
    rw [canonList_eq_map, canonList_eq_map]
    exact hperm.map _
  rw [sortKvs_perm_eq _ _ hperm' (by rw [nodupKeys_canonList]; exact hnd)]

/-! ## The claims -/

/-- C1: for every result record, commitment string, model id and signing
keypair (with the ambient timestamp and nonce made explicit), issuing a proof
with `generate_analysis_proof` and then calling `verify_proof` on that
unmodified proof with the same expected commitment returns `true`. -/
theorem claim_C1_issue_then_verify (sha256 : Bytes → Bytes) (key : ECCKey)
    (model_id commitment : String) (result_record : Json) (timestamp : Int)
    (nonce : String) :
    verify_proof sha256
      (generate_analysis_proof sha256 key model_id commitment result_record
        timestamp nonce) (some commitment) = true := by
  rw [verify_generate]
  simp

/-- C10: supplying the empty string as the expected commitment skips the
commitment-equality check entirely (Python: `if expected_commitment:` is
falsy on `""` as on `None`): for every proof record the verdict with `""`
equals the verdict with no expected commitment. -/
theorem claim_C10_empty_commitment_skips (sha256 : Bytes → Bytes) (p : Json) :
    verify_proof sha256 p (some "") = verify_proof sha256 p none := rfl

/-- C9: the `verify_proof` verdict depends only on the nine fields of
`protectedKeys` (payload subset plus signature and public key): setting any
other field to any value, or removing it, leaves the verdict unchanged. -/
theorem claim_C9_frame (sha256 : Bytes → Bytes) (p : Json) (e : Option String)
    (k : String) (hk : k ∉ protectedKeys) (v : Json) :
    verify_proof sha256 (objSet p k v) e = verify_proof sha256 p e ∧
    verify_proof sha256 (objDel p k) e = verify_proof sha256 p e := by
  constructor
  · exact verify_congr _ _ _ _
      (fun k' hk' => jsonGet_objSet_ne p k k' v (fun he => hk (he ▸ hk')))
  · exact verify_congr _ _ _ _
      (fun k' hk' => jsonGet_objDel_ne p k k' (fun he => hk (he ▸ hk')))

/-- Witness for C9 at a concrete input: `metadata` is not a protected key,
and mutating or dropping it preserves the verdict. -/
theorem claim_C9_frame_witness :
    ("metadata" ∉ protectedKeys) ∧
    (verify_proof (fun bs => bs) (objSet (.obj []) "metadata" (.int 1)) none =
      verify_proof (fun bs => bs) (.obj []) none ∧
    verify_proof (fun bs => bs) (objDel (.obj []) "metadata") none =
      verify_proof (fun bs => bs) (.obj []) none) :=
  ⟨by decide, claim_C9_frame (fun bs => bs) (.obj []) none "metadata" (by decide) (.int 1)⟩

/-- C8: the result hash is a deterministic function of the logical result
record: permuting the entries of a record with pairwise distinct keys (the
key insertion order of a Python dict) leaves the hash of the canonical
sorted-key encoding unchanged; repeated calls are equal because
`analysisHash` is a pure function. -/
theorem claim_C8_result_hash_deterministic (sha256 : Bytes → Bytes)
    (kvs1 kvs2 : List (String × Json)) (hperm : kvs1.Perm kvs2)
    (hnd : nodupKeys kvs1 = true) :
    analysisHash sha256 (.obj kvs1) = analysisHash sha256 (.obj kvs2) := by
  rw [analysisHash, analysisHash, dumps_obj_perm kvs1 kvs2 hperm hnd]

/-- Witness for C8 at the spec's Scenario B record, with its two entries in
either insertion order. -/
theorem claim_C8_result_hash_deterministic_witness :
    ([("status", Json.str "Normal"), ("severity", Json.str "NORMAL")].Perm
      [("severity", Json.str "NORMAL"), ("status", Json.str "Normal")]) ∧
    nodupKeys [("status", Json.str "Normal"), ("severity", Json.str "NORMAL")] = true ∧
    analysisHash (fun bs => bs)
      (.obj [("status", Json.str "Normal"), ("severity", Json.str "NORMAL")]) =
    analysisHash (fun bs => bs)
      (.obj [("severity", Json.str "NORMAL"), ("status", Json.str "Normal")]) :=
  ⟨by decide, by decide,
    claim_C8_result_hash_deterministic (fun bs => bs) _ _ (by decide) (by decide)⟩

/-- C5: verification is a total function over arbitrary untrusted input (in
this embedding every exception path of the source is an explicit `false`):
a missing `signature` or `public_key` field, a falsy one, a Base58/PEM decode
failure, or a signature mismatch each force the verdict `false`. -/
theorem claim_C5_verify_total (sha256 : Bytes → Bytes) (p : Json) (e : Option String) :
    (jsonGet p "signature" = none → verify_proof sha256 p e = false) ∧
    (jsonGet p "public_key" = none → verify_proof sha256 p e = false) ∧
    (truthy (jsonGet p "signature") = false → verify_proof sha256 p e = false) ∧
    (truthy (jsonGet p "public_key") = false → verify_proof sha256 p e = false) ∧
    (∀ s, jsonGet p "signature" = some (.str s) → b58decode s = none →
      verify_proof sha256 p e = false) ∧
    (decodeSigAndKey (jsonGet p "signature") (jsonGet p "public_key") = none →
      verify_proof sha256 p e = false) ∧
    (∀ sig pub,
      decodeSigAndKey (jsonGet p "signature") (jsonGet p "public_key") = some (sig, pub) →
      dssVerify pub (sha256 (utf8Encode (Json.dumps (verifyPayload p)))) sig = false →
      verify_proof sha256 p e = false) := by
  refine ⟨?_, ?_, ?_, ?_, ?_, ?_, ?_⟩
  · intro h
    exact verify_false_of_sig_falsy sha256 p e (by rw [h]; rfl)
  · intro h
    exact verify_false_of_pk_falsy sha256 p e (by rw [h]; rfl)
  · exact verify_false_of_sig_falsy sha256 p e
  · exact verify_false_of_pk_falsy sha256 p e
  · intro s hs hdec
    exact verify_false_of_decode_none sha256 p e
      (by rw [hs]; exact decodeSigAndKey_b58_none _ _ hdec)
  · exact verify_false_of_decode_none sha256 p e
  · exact fun sig pub hd hv => verify_false_of_dss_false sha256 p e sig pub hd hv

/-- Witness for C5 at the spec's Scenario D: a record with no `signature`
field verifies to `false` (without raising). -/
theorem claim_C5_verify_total_witness :
    jsonGet (.obj [("public_key", Json.str "x")]) "signature" = none ∧
    verify_proof (fun bs => bs) (.obj [("public_key", Json.str "x")]) none = false :=
  ⟨by decide,
    (claim_C5_verify_total (fun bs => bs) (.obj [("public_key", Json.str "x")]) none).1
      (by decide)⟩

/-- C2: for every issued proof, mutating exactly one of the fields
`signature`, `image_commitment`, `analysis_hash`, `timestamp`, `nonce` to any
different value makes `verify_proof` (with the original expected commitment)
return `false`; setting the signature field back to its original value
restores the proof verbatim, which verifies to `true` again.  The digest
injectivity hypothesis is the symbolic idealisation of SHA-256 collision
resistance. -/
theorem claim_C2_single_field_mutation (sha256 : Bytes → Bytes)
    (hinj : Function.Injective sha256) (key : ECCKey) (mid c : String) (r : Json)
    (t : Int) (n : String) :
    (∀ f ∈ (["signature", "image_commitment", "analysis_hash", "timestamp",
        "nonce"] : List String), ∀ w : Json,
      jsonGet (generate_analysis_proof sha256 key mid c r t n) f ≠ some w →
      verify_proof sha256
        (objSet (generate_analysis_proof sha256 key mid c r t n) f w) (some c) = false) ∧
    (∀ w : Json,
      objSet (objSet (generate_analysis_proof sha256 key mid c r t n) "signature" w)
        "signature"
        ((jsonGet (generate_analysis_proof sha256 key mid c r t n) "signature").getD
          .null) =
      generate_analysis_proof sha256 key mid c r t n) ∧
    verify_proof sha256 (generate_analysis_proof sha256 key mid c r t n) (some c) =
      true := by
  refine ⟨?_, fun w => rfl, by rw [verify_generate]; simp⟩
  intro f hf w hw
  simp only [List.mem_cons, List.not_mem_nil, or_false] at hf
  rcases hf with rfl | rfl | rfl | rfl | rfl
  · exact verify_false_set_signature sha256 key mid c r t n w (some c)
      (fun he => hw (by rw [he]; rfl))
  · exact verify_false_set_ic sha256 hinj key mid c r t n w (some c)
      (fun he => hw (by rw [he]; rfl))
  · exact verify_false_set_ah sha256 hinj key mid c r t n w (some c)
      (fun he => hw (by rw [he]; rfl))
  · exact verify_false_set_ts sha256 hinj key mid c r t n w (some c)
      (fun he => hw (by rw [he]; rfl))
  · exact verify_false_set_nonce sha256 hinj key mid c r t n w (some c)
      (fun he => hw (by rw [he]; rfl))

/-- Witness for C2 at a concrete input: with the identity as (injective)
digest stand-in, bumping the timestamp of an issued proof falsifies
verification. -/
theorem claim_C2_single_field_mutation_witness :
    Function.Injective (fun bs : Bytes => bs) ∧
    verify_proof (fun bs => bs)
      (objSet (generate_analysis_proof (fun bs => bs) ⟨0⟩ "m" "c" (.obj []) 0 "n")
        "timestamp" (.int 1)) (some "c") = false :=
  ⟨fun _ _ h => h,
    (claim_C2_single_field_mutation (fun bs => bs) (fun _ _ h => h) ⟨0⟩ "m" "c"
      (.obj []) 0 "n").1 "timestamp" (by decide) (.int 1) (by decide)⟩

/-- C6: for every JSON-shaped record, serializing with
`create_proof_for_blockchain` and deserializing with
`deserialize_proof_from_blockchain` returns the record in canonical form —
which, for well-formed records (pairwise distinct keys, as every Python dict
has), is the original record up to Python `==` (entry order being all that
sorting forgets) — and the round-tripped record receives the same
`verify_proof` verdict as the original against every expected commitment. -/
theorem claim_C6_blockchain_roundtrip (p : Json) :
    deserialize_proof_from_blockchain (create_proof_for_blockchain p) =
      some (Json.canon p) ∧
    (Json.wfB p = true →
      pythonEq (Json.canon p) p = true ∧
      ∀ (sha256 : Bytes → Bytes) (e : Option String),
        verify_proof sha256 (Json.canon p) e = verify_proof sha256 p e) := by
  constructor
  · rw [create_proof_for_blockchain, deserialize_proof_from_blockchain, utf8Decode_encode]
    exact loads_dumps p
  · intro hwf
    exact ⟨by simp [pythonEq, canon_idem], fun sha256 e => verify_canon sha256 p e hwf⟩

/-- Witness for C6 at a concrete two-entry record. -/
theorem claim_C6_blockchain_roundtrip_witness :
    Json.wfB (.obj [("b", Json.int 1), ("a", Json.str "x")]) = true ∧
    pythonEq (Json.canon (.obj [("b", Json.int 1), ("a", Json.str "x")]))
      (.obj [("b", Json.int 1), ("a", Json.str "x")]) = true :=
  ⟨by decide,
    ((claim_C6_blockchain_roundtrip (.obj [("b", Json.int 1), ("a", Json.str "x")])).2
      (by decide)).1⟩

/-- C7: `generate_image_commitment` is the lowercase hex encoding of the
digest of: the content digest, the 8-byte big-endian generation time, and
the (16-byte) salt, concatenated; under the SHA3-256 output contract
(32 bytes, each a byte value) the result has length exactly 64 and consists
only of lowercase hexadecimal characters. -/
theorem claim_C7_commitment_hex_shape (sha3 : Bytes → Bytes)
    (hlen : ∀ bs, (sha3 bs).length = 32) (hbyte : ∀ bs, ∀ b ∈ sha3 bs, b < 256)
    (image_bytes : Bytes) (timestamp : Nat) (salt : Bytes)
    (_hsalt : salt.length = 16) :
    generate_image_commitment sha3 image_bytes timestamp salt =
      bytesHex (sha3 (sha3 image_bytes ++ toBytesBE8 timestamp ++ salt)) ∧
    (generate_image_commitment sha3 image_bytes timestamp salt).length = 64 ∧
    ∀ ch ∈ (generate_image_commitment sha3 image_bytes timestamp salt).data,
      ch ∈ ("0123456789abcdef" : String).data := by
  refine ⟨rfl, ?_, ?_⟩
  · show (bytesHex (sha3 (sha3 image_bytes ++ toBytesBE8 timestamp ++ salt))).length = 64
    rw [show ∀ bs : Bytes, (bytesHex bs).length = 2 * bs.length from ?_, hlen]
    · intro bs
      show ((bs.map byteHex).flatten).length = 2 * bs.length
      induction bs with
      | nil => simp
      | cons b r ih => simp [byteHex] at ih ⊢; omega
  · intro ch hch
    have hmem : ch ∈ ((sha3 (sha3 image_bytes ++ toBytesBE8 timestamp ++ salt)).map
        byteHex).flatten := hch
    rw [List.mem_flatten] at hmem
    obtain ⟨l, hl, hchl⟩ := hmem
    rw [List.mem_map] at hl
    obtain ⟨b, hb, rfl⟩ := hl
    have hb256 : b < 256 := hbyte _ b hb
    have h1 : b / 16 < 16 := by omega
    have h2 : b % 16 < 16 := by omega
    have hhex : ∀ m : Nat, m < 16 → hexDigitChar m ∈ ("0123456789abcdef" : String).data := by
      intro m hm
      interval_cases m <;> decide
    rcases List.mem_pair.mp hchl with rfl | rfl
    · exact hhex _ h1
    · exact hhex _ h2

/-- Witness for C7 with a digest stand-in satisfying the SHA3-256 output
contract. -/
theorem claim_C7_commitment_hex_shape_witness :
    (∀ bs : Bytes, ((fun _ => List.replicate 32 0) bs : Bytes).length = 32) ∧
    (List.replicate 16 0 : Bytes).length = 16 ∧
    (generate_image_commitment (fun _ => List.replicate 32 0) [1, 2, 3] 5
      (List.replicate 16 0)).length = 64 :=
  ⟨fun _ => by simp, by simp,
    (claim_C7_commitment_hex_shape (fun _ => List.replicate 32 0)
      (fun _ => by simp) (fun _ b hb => by simp at hb; omega) [1, 2, 3] 5
      (List.replicate 16 0) (by simp)).2.1⟩

set_option maxRecDepth 100000

/-- Counterexample to C4 as stated: the empty string is a supplied expected
commitment different from the proof's commitment `"c"`, yet verification
returns `true` — Python's `if expected_commitment:` treats `""` as "not
supplied" and skips the equality check. -/
theorem claim_C4_counterexample :
    ("" : String) ≠ "c" ∧
    verify_proof (fun bs => [bs.length])
      (generate_analysis_proof (fun bs => [bs.length]) ⟨0⟩ "m" "c" (.obj []) 0 "n")
      (some "") = true := by
  constructor
  · decide
  · decide

/-- C4 (amended): for every proof record and every supplied nonempty expected
commitment `w` differing from the record's `image_commitment` field,
`verify_proof` returns `false`; the empty string, like `None`, skips the
commitment check entirely, leaving only the signature check to decide. -/
theorem claim_C4_wrong_commitment (sha256 : Bytes → Bytes) (p : Json) (w : String)
    (hw : w ≠ "") (hne : jsonGet p "image_commitment" ≠ some (.str w)) :
    verify_proof sha256 p (some w) = false ∧
    verify_proof sha256 p (some "") = verify_proof sha256 p none := by
  refine ⟨?_, rfl⟩
  have hc : commitmentEq (jsonGet p "image_commitment") w = false := by
    cases hj : jsonGet p "image_commitment" with
    | none => rfl
    | some v =>
      cases v with
      | str s =>
        by_cases hs : s = w
        · exact absurd (hs ▸ hj) hne
        · simp [commitmentEq, hs]
      | null => rfl
      | bool b => rfl
      | int m => rfl
      | obj kvs => rfl
  rw [verify_proof]
  by_cases hb : (!truthy (jsonGet p "signature") || !truthy (jsonGet p "public_key")) = true
  · simp [hb]
  · simp only [hb]
    cases hd : decodeSigAndKey (jsonGet p "signature") (jsonGet p "public_key") with
    | none => simp
    | some sp =>
      obtain ⟨sig, pub⟩ := sp
      simp [truthyStrOpt, hw, hc]

/-- Witness for the amended C4 at a concrete input. -/
theorem claim_C4_wrong_commitment_witness :
    ("x" : String) ≠ "" ∧
    jsonGet (.obj []) "image_commitment" ≠ some (Json.str "x") ∧
    verify_proof (fun bs => bs) (.obj []) (some "x") = false :=
  ⟨by decide, by decide,
    (claim_C4_wrong_commitment (fun bs => bs) (.obj []) "x" (by decide) (by decide)).1⟩

/-- Counterexample to C3 as stated: at a concrete input the attestation
record returned by `create_atoma_tee_proof` fails `verify_proof` — both with
no expected commitment and with the derived commitment.  The `{**base_proof,
"proof_type": "zk_medical_analysis_tee", ...}` merge overrides the
`proof_type` that was signed, so verification recomputes a different payload
digest. -/
theorem claim_C3_counterexample :
    verify_proof (fun bs => [bs.length])
      (create_atoma_tee_proof (fun bs => [bs.length]) (fun _ => [1]) ⟨0⟩ "m" (.obj [])
        0 [] 0 "n" 0) none = false ∧
    verify_proof (fun bs => [bs.length])
      (create_atoma_tee_proof (fun bs => [bs.length]) (fun _ => [1]) ⟨0⟩ "m" (.obj [])
        0 [] 0 "n" 0)
      (some (generate_image_commitment (fun _ => [1])
        (utf8Encode (Json.dumps (.obj []))) 0 [])) = false := by
  constructor
  · decide
  · decide

/-- C3 (amended): the attestation record returned by
`create_atoma_tee_proof` does not itself pass `verify_proof` — the
`proof_type` override invalidates the signed payload (digest injectivity
being the symbolic collision-resistance idealisation).  The
payload-hash-signature integrity guarantee of a plain proof attaches to the
signed base: restoring `proof_type` to its signed value makes the attestation
record verify against the derived commitment, enclave metadata and all. -/
theorem claim_C3_tee_attestation (sha256 sha3 : Bytes → Bytes)
    (hinj : Function.Injective sha256) (key : ECCKey) (mid : String) (data : Json)
    (ct : Nat) (salt : Bytes) (t : Int) (n : String) (ta : Int) (e : Option String) :
    verify_proof sha256 (create_atoma_tee_proof sha256 sha3 key mid data ct salt t n ta)
      e = false ∧
    verify_proof sha256
      (objSet (create_atoma_tee_proof sha256 sha3 key mid data ct salt t n ta)
        "proof_type" (.str "zk_medical_analysis"))
      (some (generate_image_commitment sha3 (utf8Encode (Json.dumps data)) ct salt)) =
      true := by
  constructor
  · refine verify_false_of_payload_changed sha256 hinj key
      (proofPayload mid (generate_image_commitment sha3 (utf8Encode (Json.dumps data))
        ct salt) (analysisHash sha256 data) t n) _ e rfl rfl ?_
    have h1 : verifyPayload (create_atoma_tee_proof sha256 sha3 key mid data ct salt
        t n ta) =
        .obj [("proof_type", .str "zk_medical_analysis_tee"),
              ("version", .str proofVersionStr),
              ("image_commitment", .str (generate_image_commitment sha3
                (utf8Encode (Json.dumps data)) ct salt)),
              ("analysis_hash", .str (analysisHash sha256 data)),
              ("model_id", .str mid),
              ("timestamp", .int t),
              ("nonce", .str n)] := rfl
    rw [h1, canon_proofPayload]
    rw [show Json.canon (.obj [("proof_type", .str "zk_medical_analysis_tee"),
              ("version", .str proofVersionStr),
              ("image_commitment", .str (generate_image_commitment sha3
                (utf8Encode (Json.dumps data)) ct salt)),
              ("analysis_hash", .str (analysisHash sha256 data)),
              ("model_id", .str mid),
              ("timestamp", .int t),
              ("nonce", .str n)]) =
        .obj [("analysis_hash", .str (analysisHash sha256 data)),
              ("image_commitment", .str (generate_image_commitment sha3
                (utf8Encode (Json.dumps data)) ct salt)),
              ("model_id", .str mid),
              ("nonce", .str n),
              ("proof_type", .str "zk_medical_analysis_tee"),
              ("timestamp", .int t),
              ("version", .str proofVersionStr)] from by
      simp +decide [Json.canon, Json.canonList, sortKvs, List.insertionSort,
        List.orderedInsert, keyLe, proofVersionStr]]
    intro hcon
    simp only [Json.obj.injEq, List.cons.injEq, Prod.mk.injEq, and_true, true_and,
      Json.str.injEq] at hcon
    exact absurd (by tauto : ("zk_medical_analysis_tee" : String) = proofTypeStr)
      (by decide)
  · refine Eq.trans (verify_congr sha256 _
      (generate_analysis_proof sha256 key mid
        (generate_image_commitment sha3 (utf8Encode (Json.dumps data)) ct salt)
        data t n) _ ?_) ?_
    · intro k hk
      simp only [protectedKeys, List.mem_cons, List.not_mem_nil, or_false] at hk
      rcases hk with rfl | rfl | rfl | rfl | rfl | rfl | rfl | rfl | rfl <;> rfl
    · rw [verify_generate]
      simp

/-- Witness for the amended C3 at a concrete input. -/
theorem claim_C3_tee_attestation_witness :
    Function.Injective (fun bs : Bytes => bs) ∧
    verify_proof (fun bs => bs)
      (objSet (create_atoma_tee_proof (fun bs => bs) (fun _ => [1]) ⟨0⟩ "m" (.obj [])
        0 [] 0 "n" 0) "proof_type" (.str "zk_medical_analysis"))
      (some (generate_image_commitment (fun _ => [1])
        (utf8Encode (Json.dumps (.obj []))) 0 [])) = true :=
  ⟨fun _ _ h => h,
    (claim_C3_tee_attestation (fun bs => bs) (fun _ => [1]) (fun _ _ h => h) ⟨0⟩ "m"
      (.obj []) 0 [] 0 "n" 0 none).2⟩
